import Mathlib

/-!
A shallow embedding of the Tetris engine in `tetris.py` (pytris): the board cell
model, gravity (`do_fall`), rotation (`falling_rotate`), line clearing
(`elide_tetrises` / `animate_elision`), scoring, the piece generator
(`RandomPieceGenerator`), the sync-frame codec (`serialize` / `unserialize`),
the per-tick driver (`do_tick`) and the receive path (`check_network`).

The board is embedded as a total function `Nat → Nat → Blot`; the Python code
only ever reads and writes indices `row < GAME_HEIGHT`, `col < GAME_WIDTH`
(guarded explicitly in `try_put`, and implicitly by the list sizes elsewhere),
so every operation below carries the same guards and cells outside that
rectangle are never touched nor observed.  Python exceptions
(`GameOverException` from `put_or_die`, `KeyError` from the score-multiplier
dict, `IndexError` from list indexing) are embedded as `Option` / `Except`
failure values.
-/

def GAME_WIDTH : Nat := 10

def GAME_HEIGHT : Nat := 20

/-- One catalog entry of `PIECES` in the source: the arrangement matrix
(0 = absent, 1 = body, 2 = center), color, flags and integer id. -/
structure Piece where
  arrangement : List (List Nat)
  color : Nat × Nat × Nat
  long_tetrimono_rotation : Bool
  can_be_first : Bool
  no_rotation : Bool
  id : Nat
deriving DecidableEq, Repr

/-- The fixed piece catalog `PIECES` of the source, ids 0..6. -/
def PIECES : List Piece := [
  { arrangement := [[1, 2, 1, 1], [0, 0, 0, 0]], color := (0x00, 0xff, 0xff),
    long_tetrimono_rotation := true, can_be_first := true, no_rotation := false, id := 0 },
  { arrangement := [[1, 2, 1, 0], [0, 0, 1, 0]], color := (0x30, 0x30, 0xff),
    long_tetrimono_rotation := false, can_be_first := true, no_rotation := false, id := 1 },
  { arrangement := [[1, 2, 1, 0], [1, 0, 0, 0]], color := (0xff, 0xa5, 0x00),
    long_tetrimono_rotation := false, can_be_first := true, no_rotation := false, id := 2 },
  { arrangement := [[1, 1, 0, 0], [1, 2, 0, 0]], color := (0xff, 0xff, 0x00),
    long_tetrimono_rotation := false, can_be_first := true, no_rotation := true, id := 3 },
  { arrangement := [[0, 1, 1, 0], [1, 2, 0, 0]], color := (0x00, 0xff, 0x00),
    long_tetrimono_rotation := false, can_be_first := false, no_rotation := false, id := 4 },
  { arrangement := [[1, 2, 1, 0], [0, 1, 0, 0]], color := (0x80, 0x00, 0x80),
    long_tetrimono_rotation := false, can_be_first := true, no_rotation := false, id := 5 },
  { arrangement := [[1, 2, 0, 0], [0, 1, 1, 0]], color := (0xff, 0x00, 0x00),
    long_tetrimono_rotation := false, can_be_first := false, no_rotation := false, id := 6 }]

inductive BlotType where
  | EMPTY : BlotType
  | PLACED : BlotType
  | FALLING : BlotType
deriving DecidableEq, Repr

/-- One cell of the board: the `Blot` class of the source
(`_type`, `_piece`, `_is_center_blot`). -/
structure Blot where
  type : BlotType
  piece : Option Piece
  isCenter : Bool
deriving DecidableEq, Repr

/-- `Blot(BlotType.EMPTY)`: the empty cell (piece `None`, center flag false). -/
def emptyBlot : Blot := ⟨BlotType.EMPTY, none, false⟩

def Blot.is_empty (b : Blot) : Bool :=
  match b.type with
  | BlotType.EMPTY => true
  | _ => false

def Blot.is_falling (b : Blot) : Bool :=
  match b.type with
  | BlotType.FALLING => true
  | _ => false

def Blot.is_placed (b : Blot) : Bool :=
  match b.type with
  | BlotType.PLACED => true
  | _ => false

def Blot.is_center_blot (b : Blot) : Bool := b.isCenter

/-- `to_placed_blot`: same piece, type `PLACED`, center flag dropped. -/
def Blot.to_placed_blot (b : Blot) : Blot := ⟨BlotType.PLACED, b.piece, false⟩

/-- `should_rotate`: the piece reference is present and its `no_rotation` flag is unset. -/
def Blot.should_rotate (b : Blot) : Bool :=
  match b.piece with
  | none => false
  | some p => !p.no_rotation

/-- The board: cell at row `r`, column `c` is `b r c`.  Only the rectangle
`r < GAME_HEIGHT`, `c < GAME_WIDTH` is ever used. -/
abbrev Board := Nat → Nat → Blot

/-- `self.board[row][col] = blot`. -/
def setCell (b : Board) (row col : Nat) (x : Blot) : Board :=
  fun r c => if r = row ∧ c = col then x else b r c

/-- The `all_blots` generator: `(row, col, blot)` for all cells in row-major order. -/
def all_blots (b : Board) : List (Nat × Nat × Blot) :=
  (List.range GAME_HEIGHT).flatMap fun row =>
    (List.range GAME_WIDTH).map fun col => (row, col, b row col)

/-- `has_falling_tetrimono`: some cell of the board is falling. -/
def has_falling_tetrimono (b : Board) : Bool :=
  (List.range GAME_HEIGHT).any fun row =>
    (List.range GAME_WIDTH).any fun col => (b row col).is_falling

/-- `falling_freeze`: every falling cell of the board becomes the
corresponding placed blot (same piece). -/
def falling_freeze (b : Board) : Board :=
  fun r c =>
    if r < GAME_HEIGHT ∧ c < GAME_WIDTH ∧ (b r c).is_falling = true then
      (b r c).to_placed_blot
    else b r c

/-- `try_put`: writes the blot and returns `true` iff the coordinate is in
bounds and the target cell is empty; otherwise the board is unchanged and the
result is `false`. -/
def try_put (b : Board) (row col : Int) (x : Blot) : Board × Bool :=
  if 0 ≤ row ∧ row < (GAME_HEIGHT : Int) ∧ 0 ≤ col ∧ col < (GAME_WIDTH : Int) then
    if (b row.toNat col.toNat).is_empty = true then
      (setCell b row.toNat col.toNat x, true)
    else (b, false)
  else (b, false)

/-- `put_or_die`: writes the blot if the target cell is empty, otherwise
raises `GameOverException` (embedded as `none`). -/
def put_or_die (b : Board) (row col : Nat) (x : Blot) : Option Board :=
  if (b row col).is_empty = true then some (setCell b row col x) else none

/-! ## Gravity (`do_fall`) -/

/-- How the per-cell loop of `do_fall` can abort: `collision` models hitting a
placed cell one row below a falling cell (snapshot restore + freeze),
`gameOver` models the `GameOverException` of `put_or_die`. -/
inductive FallErr where
  | collision : FallErr
  | gameOver : FallErr
deriving DecidableEq, Repr

/-- The body of `do_fall`'s nested loop, run over an explicit list of
`(row, col)` cells in the loop's iteration order: a falling cell with a placed
cell below aborts with `collision`; otherwise it is moved one row down through
`put_or_die` and its old cell is set empty. -/
def fall_loop (b : Board) : List (Nat × Nat) → Except FallErr Board
  | [] => Except.ok b
  | (row, col) :: rest =>
    let blot := b row col
    if blot.is_falling = true then
      if (b (row + 1) col).is_placed = true then Except.error FallErr.collision
      else
        match put_or_die b (row + 1) col blot with
        | none => Except.error FallErr.gameOver
        | some b1 => fall_loop (setCell b1 row col emptyBlot) rest
    else fall_loop b rest

/-- The cells of row `row`, in column order: `for col in range(GAME_WIDTH)`. -/
def row_cells (row : Nat) : List (Nat × Nat) :=
  (List.range GAME_WIDTH).map fun col => (row, col)

/-- The iteration order of `do_fall`'s main loop over the first `k` rows:
`for row in reversed(range(k)): for col in range(GAME_WIDTH)`. -/
def rows_cells (k : Nat) : List (Nat × Nat) :=
  ((List.range k).reverse).flatMap row_cells

/-- The bottom-row check opening `do_fall`: some cell of the last row is falling. -/
def bottomRowFalling (b : Board) : Bool :=
  (List.range GAME_WIDTH).any fun col => (b (GAME_HEIGHT - 1) col).is_falling

/-- Some falling cell has a placed cell in the square directly below it
(within the processed rows `0..GAME_HEIGHT-2`). -/
def collisionBelow (b : Board) : Bool :=
  (List.range (GAME_HEIGHT - 1)).any fun row =>
    (List.range GAME_WIDTH).any fun col =>
      (b row col).is_falling && (b (row + 1) col).is_placed

/-- `do_fall`: returns the updated board and whether the piece froze, or
`none` for the (unreachable) `GameOverException`.  A non-master engine without
the `even_if_slave` override returns immediately with `false`; a falling cell
in the bottom row freezes the piece in place; a collision below restores the
pre-move snapshot (the original board) and freezes; otherwise the moved board
stands. -/
def do_fall (master even_if_slave : Bool) (b : Board) : Option (Board × Bool) :=
  if !master && !even_if_slave then some (b, false)
  else if bottomRowFalling b = true then some (falling_freeze b, true)
  else
    match fall_loop b (rows_cells (GAME_HEIGHT - 1)) with
    | Except.ok b1 => some (b1, false)
    | Except.error FallErr.collision => some (falling_freeze b, true)
    | Except.error FallErr.gameOver => none

/-- The board in which every falling cell has moved down exactly one row:
a cell receives the falling blot from the cell above it, a falling cell whose
place is not taken over becomes empty, every other cell is unchanged.  This is
the claimed result of a non-locking `do_fall`. -/
def gravityMoved (b : Board) : Board :=
  fun r c =>
    if c < GAME_WIDTH ∧ 1 ≤ r ∧ r ≤ GAME_HEIGHT - 1 ∧ (b (r - 1) c).is_falling = true then
      b (r - 1) c
    else if c < GAME_WIDTH ∧ r < GAME_HEIGHT - 1 ∧ (b r c).is_falling = true then emptyBlot
    else b r c

/-- Proof helper: the board after the `do_fall` loop has processed the columns
`cs` of row `row` (falling cells of row `row` at those columns moved to row
`row + 1`). -/
def shiftRow (b : Board) (row : Nat) (cs : List Nat) : Board :=
  fun r c =>
    if r = row + 1 ∧ c ∈ cs ∧ (b row c).is_falling = true then b row c
    else if r = row ∧ c ∈ cs ∧ (b row c).is_falling = true then emptyBlot
    else b r c

/-- Proof helper: the board after the `do_fall` loop has processed rows
`k - 1, …, 0` (every falling cell in a row `< k` moved down one row). -/
def moveUpTo (b : Board) (k : Nat) : Board :=
  fun r c =>
    if c < GAME_WIDTH ∧ 1 ≤ r ∧ r ≤ k ∧ (b (r - 1) c).is_falling = true then b (r - 1) c
    else if c < GAME_WIDTH ∧ r < k ∧ (b r c).is_falling = true then emptyBlot
    else b r c

/-! ## Rotation (`falling_rotate`) -/

/-- `falling_get_center_blot`: `none` when the board has no falling cell or no
falling center cell; otherwise the first (row-major) falling center cell.
(The Python function returns `(0, 0, None)` in the two `none` cases.) -/
def falling_get_center_blot (b : Board) : Option (Nat × Nat × Blot) :=
  if has_falling_tetrimono b = false then none
  else
    match (all_blots b).filter
        (fun x => x.2.2.is_falling && x.2.2.is_center_blot) with
    | [] => none
    | x :: _ => some x

/-- The `all_falling` list collected by `falling_rotate`: every falling
non-center cell, in row-major order. -/
def allFallingNonCenter (b : Board) : List (Nat × Nat × Blot) :=
  (all_blots b).filter fun x => x.2.2.is_falling && !x.2.2.is_center_blot

/-- The board after `falling_rotate` has removed every falling non-center cell
(set to `Blot(BlotType.EMPTY)`). -/
def remove_falling (b : Board) : Board :=
  fun r c =>
    if r < GAME_HEIGHT ∧ c < GAME_WIDTH ∧ (b r c).is_falling = true ∧
        (b r c).is_center_blot = false then
      emptyBlot
    else b r c

/-- The rotated target of cell `(row, col)` about center `(cr, cc)`:
`rotated_row = center_row + rotation * (col - center_col)`,
`rotated_col = center_col - rotation * (row - center_row)`. -/
def rotatedTarget (cr cc : Nat) (rotation : Int) (row col : Nat) : Int × Int :=
  ((cr : Int) + rotation * ((col : Int) - (cc : Int)),
   (cc : Int) - rotation * ((row : Int) - (cr : Int)))

/-- The placement loop of `falling_rotate`: place each removed cell at its
rotated target through `try_put`; on the first failure restore the snapshot
`orig` (the board as it was before the removal) and stop. -/
def rotate_place (orig : Board) (cr cc : Nat) (rotation : Int) :
    Board → List (Nat × Nat × Blot) → Board
  | bd, [] => bd
  | bd, (row, col, blot) :: rest =>
    let t := rotatedTarget cr cc rotation row col
    match try_put bd t.1 t.2 blot with
    | (bd1, true) => rotate_place orig cr cc rotation bd1 rest
    | (_, false) => orig

/-- `falling_rotate`: no-op when there is no center blot or the piece's
`no_rotation` flag is set; otherwise remove all falling non-center cells and
re-place them rotated, restoring the original board on any failure. -/
def falling_rotate (b : Board) (rotation : Int) : Board :=
  match falling_get_center_blot b with
  | none => b
  | some (center_row, center_col, center_blot) =>
    if center_blot.should_rotate = false then b
    else
      rotate_place b center_row center_col rotation (remove_falling b)
        (allFallingNonCenter b)

/-- Some rotated target cell of `falling_rotate` is out of bounds or occupied
(not empty on the board from which the falling non-center cells were removed).
`false` whenever rotation is a no-op (no center, or `no_rotation` set). -/
def rotationBlocked (b : Board) (rotation : Int) : Bool :=
  match falling_get_center_blot b with
  | none => false
  | some (center_row, center_col, center_blot) =>
    if center_blot.should_rotate = false then false
    else
      (allFallingNonCenter b).any fun x =>
        let t := rotatedTarget center_row center_col rotation x.1 x.2.1
        !(decide (0 ≤ t.1 ∧ t.1 < (GAME_HEIGHT : Int) ∧ 0 ≤ t.2 ∧ t.2 < (GAME_WIDTH : Int))) ||
          !((remove_falling b) t.1.toNat t.2.toNat).is_empty

/-! ## The piece generator (`RandomPieceGenerator`)

`random.shuffle` is modelled by an oracle stream `shuffles : Nat → List Piece`
of shuffle outcomes consumed in order (index `shuffleIdx`); theorems that need
the fairness property take the hypothesis that every stream element is a
permutation of `PIECES`, which is the contract of `random.shuffle` on a copy
of `PIECES`.  `random.choice(pieces_that_can_be_first)` is modelled as an
arbitrary member of that list. -/

def pieces_that_can_be_first : List Piece := PIECES.filter fun p => p.can_be_first

structure RandomPieceGenerator where
  next_pieces_buffer : List Piece
  shuffles : Nat → List Piece
  shuffleIdx : Nat

/-- `_fill_buffer_if_needed`: when the buffer holds 2 or fewer entries, append
one whole shuffled copy of `PIECES` (the next oracle element). -/
def RandomPieceGenerator.fill_buffer_if_needed (g : RandomPieceGenerator) :
    RandomPieceGenerator :=
  if 2 < g.next_pieces_buffer.length then g
  else
    { g with
      next_pieces_buffer := g.next_pieces_buffer ++ g.shuffles g.shuffleIdx
      shuffleIdx := g.shuffleIdx + 1 }

/-- The constructor: seed the buffer with one piece drawn from
`pieces_that_can_be_first`, then fill. -/
def RandomPieceGenerator.init (seed : Piece) (shuffles : Nat → List Piece) :
    RandomPieceGenerator :=
  RandomPieceGenerator.fill_buffer_if_needed
    { next_pieces_buffer := [seed], shuffles := shuffles, shuffleIdx := 0 }

/-- `next()`: fill if needed, then pop the head (`pop(0)` on an empty list
would raise, embedded as `none`). -/
def RandomPieceGenerator.next (g : RandomPieceGenerator) :
    Option (Piece × RandomPieceGenerator) :=
  match g.fill_buffer_if_needed.next_pieces_buffer with
  | [] => none
  | p :: rest => some (p, { g.fill_buffer_if_needed with next_pieces_buffer := rest })

/-- `peek()`: the buffer head, without mutation (`[0]` on an empty list would
raise, embedded as `none`). -/
def RandomPieceGenerator.peek (g : RandomPieceGenerator) : Option Piece :=
  g.next_pieces_buffer.head?

/-- The generator states reachable in a session: the freshly constructed
generator, and anything obtained from a reachable state by `next()`. -/
inductive RandomPieceGenerator.Reachable (shuffles : Nat → List Piece) :
    RandomPieceGenerator → Prop
  | init (seed : Piece) (hseed : seed ∈ pieces_that_can_be_first) :
      RandomPieceGenerator.Reachable shuffles (RandomPieceGenerator.init seed shuffles)
  | step (g : RandomPieceGenerator) (p : Piece) (g1 : RandomPieceGenerator)
      (hg : RandomPieceGenerator.Reachable shuffles g)
      (hn : g.next = some (p, g1)) :
      RandomPieceGenerator.Reachable shuffles g1

/-! ## The game state and per-tick logic -/

/-- The engine state of the `Game` class that the claims touch.  The
line-clear animation generator made by `animate_elision` is represented by the
row list it captured (`elision_rows`) and how many of its `GAME_WIDTH` yields
have run (`elision_yielded`); `has_send_to_network` says whether a
`send_to_network` callback was supplied (multiplayer). -/
structure Game where
  points : Nat
  lines : Nat
  level : Nat
  frame : Nat
  master : Bool
  board : Board
  running_elision_animation : Bool
  elision_rows : List Nat
  elision_yielded : Nat
  random_piece_generator : RandomPieceGenerator
  has_send_to_network : Bool

/-- `frames_per_gridcell`: the level-to-speed lookup table; any level above 18
gives 1.  (The final `_` arm can only be level 18 because of the guard.) -/
def frames_per_gridcell (level : Nat) : Nat :=
  if 18 < level then 1
  else
    match level with
    | 0 => 36 | 1 => 32 | 2 => 29 | 3 => 25 | 4 => 22 | 5 => 18 | 6 => 15
    | 7 => 11 | 8 => 7 | 9 => 5 | 10 => 4 | 11 => 4 | 12 => 4 | 13 => 3
    | 14 => 3 | 15 => 3 | 16 => 2 | 17 => 2 | _ => 2

/-- The `multiplier_for_line_count` dict; a count outside `{1,2,3,4}` raises
`KeyError` (embedded as `none`). -/
def multiplier_for_line_count (line_count : Nat) : Option Nat :=
  match line_count with
  | 1 => some 40
  | 2 => some 100
  | 3 => some 300
  | 4 => some 1200
  | _ => none

/-- `add_points_for_elision`: add `multiplier * (level + 1)` points, add the
cleared count to `lines`, and recompute `level = lines // 10`. -/
def add_points_for_elision (g : Game) (line_count : Nat) : Option Game :=
  (multiplier_for_line_count line_count).map fun m =>
    { g with
      points := g.points + m * (g.level + 1)
      lines := g.lines + line_count
      level := (g.lines + line_count) / 10 }

/-- A full row: the placed cells of the row, filtered out of it, number
`GAME_WIDTH` (i.e. every cell of the row is placed). -/
def full_row (b : Board) (row : Nat) : Bool :=
  (((List.range GAME_WIDTH).map fun col => b row col).filter
      fun blot => blot.is_placed).length = GAME_WIDTH

/-- The `rows_to_elide` list of `elide_tetrises`: all full rows, top to bottom. -/
def rows_to_elide (b : Board) : List Nat :=
  (List.range GAME_HEIGHT).filter (full_row b)

/-- `elide_tetrises`: masters only; when some rows are full, score them and
start the elision animation over them. -/
def elide_tetrises (g : Game) : Option Game :=
  if !g.master then some g
  else
    let rows := rows_to_elide g.board
    if rows.length ≠ 0 then
      (add_points_for_elision g rows.length).map fun g1 =>
        { g1 with
          running_elision_animation := true
          elision_rows := rows
          elision_yielded := 0 }
    else some g

/-- `del self.board[rowid]` followed by `self.board.insert(0, empty row)`, as
an index map: deleting row `i` sends index `r` to the old `r` for `r < i` and
to the old `r + 1` for `r ≥ i`; inserting the empty row at 0 then sends 0 to
the empty row and `r ≥ 1` to the previous `r - 1`.  Composed: row 0 is empty,
rows `1..i` show the old rows `0..i-1`, rows `> i` are unchanged. -/
def delete_row_insert_empty (b : Board) (i : Nat) : Board :=
  fun r c => if r = 0 then emptyBlot else if r ≤ i then b (r - 1) c else b r c

/-- The row-removal block ending the `animate_elision` generator:
`for rowid in rows_to_elide: del self.board[rowid]; self.board.insert(0, …)`. -/
def animate_elision_removal (b : Board) (rows : List Nat) : Board :=
  rows.foldl delete_row_insert_empty b

/-- One `next()` on the `animate_elision` generator: each of the first
`GAME_WIDTH` calls runs one drawing step (no board change) and yields; the
call after that runs the row-removal block, and the generator's
`StopIteration` clears `running_elision_animation`. -/
def animation_next (g : Game) : Game :=
  if g.elision_yielded < GAME_WIDTH then { g with elision_yielded := g.elision_yielded + 1 }
  else
    { g with
      board := animate_elision_removal g.board g.elision_rows
      running_elision_animation := false }

/-- Drive the animation for at most `fuel` ticks (stopping as soon as
`running_elision_animation` is false). -/
def run_animation : Nat → Game → Game
  | 0, g => g
  | fuel + 1, g =>
    if g.running_elision_animation then run_animation fuel (animation_next g)
    else g

/-- The whole line-clear routine of the claims: full-row detection and scoring
(`elide_tetrises`) plus the animation run to completion (`GAME_WIDTH` yield
steps and the removal step: `GAME_WIDTH + 1` ticks suffice). -/
def elide_run (g : Game) : Option Game :=
  (elide_tetrises g).map (run_animation (GAME_WIDTH + 1))

/-! ## Spawning (`put_new_tetrimono`) -/

/-- The spawn placement loop of `put_new_tetrimono` over the `(h, w)` cells of
the arrangement: entry 1 places a falling body blot, entry 2 the falling
center blot, both through `put_or_die`. -/
def spawn_cells (arr : List (List Nat)) (start_w : Nat) (point point_center : Blot) :
    Board → List (Nat × Nat) → Option Board
  | b, [] => some b
  | b, (h, w) :: rest =>
    let entry := (arr.getD h []).getD w 0
    (if entry = 1 then put_or_die b h (start_w + w) point
     else if entry = 2 then put_or_die b h (start_w + w) point_center
     else some b).bind fun b1 => spawn_cells arr start_w point point_center b1 rest

/-- `put_new_tetrimono`: masters only; draw the next piece and place its
arrangement horizontally centered in the top rows; a blocked spawn raises
`GameOverException` (`none`). -/
def put_new_tetrimono (g : Game) : Option Game :=
  if !g.master then some g
  else
    match g.random_piece_generator.next with
    | none => none
    | some (piece, rpg1) =>
      let arr := piece.arrangement
      let piece_height := arr.length
      let piece_width := (arr.headD []).length
      let point : Blot := ⟨BlotType.FALLING, some piece, false⟩
      let point_center : Blot := ⟨BlotType.FALLING, some piece, true⟩
      let start_w := (GAME_WIDTH - piece_width) / 2
      (spawn_cells arr start_w point point_center g.board
          ((List.range piece_height).flatMap fun h =>
            (List.range piece_width).map fun w => (h, w))).map fun b1 =>
        { g with board := b1, random_piece_generator := rpg1 }

/-! ## The sync-frame codec (`serialize` / `unserialize`)

Frames are byte lists (`List Nat`, each entry < 256 in practice). -/

/-- The cell byte written by `serialize`: 1 for an empty cell, piece id + 60
for the falling center cell, piece id + 30 for a falling cell, piece id + 2
for a placed cell.  A non-empty blot without a piece reference would crash
Python (`None.id`), embedded as `none`. -/
def serializeBlot (blot : Blot) : Option Nat :=
  if blot.is_empty = true then some 1
  else
    match blot.piece with
    | none => none
    | some p =>
      if blot.is_falling && blot.is_center_blot then some (p.id + 60)
      else if blot.is_falling then some (p.id + 30)
      else some (p.id + 2)

/-- `serialize`: the ownership byte (2 when the opponent should become master,
i.e. when this engine is not master; 1 otherwise) followed by one byte per
cell in `all_blots` order. -/
def Game.serialize (g : Game) : Option (List Nat) :=
  ((all_blots g.board).mapM fun x => serializeBlot x.2.2).map fun cells =>
    (if !g.master then 2 else 1) :: cells

/-- Python list indexing `PIECES[i]`, including one round of negative-index
wrapping; out of range raises `IndexError` (`none`). -/
def piecesAt (i : Int) : Option Piece :=
  if 0 ≤ i then PIECES.get? i.toNat
  else if -(PIECES.length : Int) ≤ i then PIECES.get? (i + PIECES.length).toNat
  else none

/-- The cell decoder of `unserialize`: byte 1 is empty; bytes ≥ 60 a falling
center with piece `PIECES[byte - 60]`; bytes ≥ 30 a falling cell with piece
`PIECES[byte - 30]`; anything else a placed cell with piece
`PIECES[byte - 2]` (Python subtraction, so byte 0 gives index -2). -/
def decodeBlot (byte : Nat) : Option Blot :=
  if byte = 1 then some emptyBlot
  else if 60 ≤ byte then
    (piecesAt ((byte : Int) - 60)).map fun p => ⟨BlotType.FALLING, some p, true⟩
  else if 30 ≤ byte then
    (piecesAt ((byte : Int) - 30)).map fun p => ⟨BlotType.FALLING, some p, false⟩
  else
    (piecesAt ((byte : Int) - 2)).map fun p => ⟨BlotType.PLACED, some p, false⟩

/-- The cell loop of `unserialize`: byte `i` (counting from 0 after the
ownership byte) is decoded and written to row `i / GAME_WIDTH`, column
`i % GAME_WIDTH`; a row index beyond the board raises `IndexError` (`none`). -/
def unserialize_cells : List Nat → Nat → Board → Option Board
  | [], _, b => some b
  | byte :: rest, i, b =>
    let row := i / GAME_WIDTH
    let col := i % GAME_WIDTH
    if GAME_HEIGHT ≤ row then none
    else
      (decodeBlot byte).bind fun blot =>
        unserialize_cells rest (i + 1) (setCell b row col blot)

/-- `unserialize`: ownership byte 2 sets `master := True` (any other value
leaves it alone), then every following byte overwrites one board cell.
Reading `data[0]` of an empty frame raises (`none`). -/
def Game.unserialize (g : Game) (data : List Nat) : Option Game :=
  match data with
  | [] => none
  | d0 :: rest =>
    (unserialize_cells rest 0 g.board).map fun b1 =>
      { g with master := if d0 = 2 then true else g.master, board := b1 }

/-! ## The tick driver and the receive path -/

/-- `do_tick`: returns the new state and, when the send branch ran, the frame
passed to `send_to_network` (`some (Game.serialize …)`); `none` for a tick that
sent nothing.  The whole result is `none` when `GameOverException` escapes.
An animation tick advances the generator; otherwise on gravity frames the
engine falls (locking runs `elide_tetrises` and hands mastery off by clearing
`master`) or spawns, then sends only if it is still master and has a callback.
`frame` increments every tick. -/
def do_tick (g : Game) : Option (Game × Option (Option (List Nat))) :=
  if g.running_elision_animation then
    some ({ animation_next g with frame := g.frame + 1 }, none)
  else if g.frame % frames_per_gridcell g.level = 0 then
    (if has_falling_tetrimono g.board = true then
        match do_fall g.master false g.board with
        | none => none
        | some (b1, locked) =>
          let g1 := { g with board := b1 }
          if locked then (elide_tetrises g1).map fun g2 => { g2 with master := false }
          else elide_tetrises g1
      else put_new_tetrimono g).map fun g2 =>
      let sent := if g2.master && g2.has_send_to_network then some g2.serialize else none
      ({ g2 with frame := g.frame + 1 }, sent)
  else some ({ g with frame := g.frame + 1 }, none)

/-- `check_network` after a line was read from the relay: an empty read is
ignored; a trailing newline byte is stripped; a frame whose length is not
`GAME_WIDTH * GAME_HEIGHT + 1` is dropped (no mutation); otherwise the frame
is applied with `unserialize` (whose uncaught exceptions are `none`). -/
def check_network (g : Game) (line : List Nat) : Option Game :=
  if line = [] then some g
  else
    let line1 := if line.getLast? = some 10 then line.dropLast else line
    if line1.length ≠ GAME_WIDTH * GAME_HEIGHT + 1 then some g
    else g.unserialize line1

/-! ## Well-formed cells

Every blot the engine ever stores is either empty, or carries the catalog
piece its id names; placed and empty blots never carry the center flag.  (All
blots are built from `PIECES` members by spawning / freezing / decoding.) -/

/-- A well-formed blot, as stored by the engine. -/
def BlotWf (x : Blot) : Bool :=
  match x.type, x.piece with
  | BlotType.EMPTY, none => !x.isCenter
  | BlotType.PLACED, some p => decide (PIECES.get? p.id = some p) && !x.isCenter
  | BlotType.FALLING, some p => decide (PIECES.get? p.id = some p)
  | _, _ => false

/-- Every in-range cell of the board is well formed. -/
def BoardWf (b : Board) : Bool :=
  (List.range GAME_HEIGHT).all fun r => (List.range GAME_WIDTH).all fun c => BlotWf (b r c)

/-! ## The record layout claimed by the specification for the persistence codec -/

/-- Big-endian unsigned encoding of `n` on `width` bytes. -/
def beBytes (width n : Nat) : List Nat :=
  (List.range width).map fun i => n / 256 ^ (width - 1 - i) % 256

/-- The 4-bit cell id of the claimed layout: 0 for empty, piece id + 1 for
placed, piece id + 1 with the high bit set for falling. -/
def specCellId (blot : Blot) : Nat :=
  if blot.is_empty = true then 0
  else if blot.is_falling = true then ((blot.piece.map Piece.id).getD 0 + 1) + 8
  else (blot.piece.map Piece.id).getD 0 + 1

/-- Pack a list of 4-bit ids two per byte (high nibble first). -/
def packNibbles : List Nat → List Nat
  | [] => []
  | [x] => [x * 16]
  | x :: y :: rest => (x * 16 + y) :: packNibbles rest

/-- Modelled from the spec: the record layout that claim C3 (spec §4.4)
asserts `serialize` produces — `points` on 8 big-endian bytes, `lines` on 4,
`level` on 4, then the cells' 4-bit color ids packed two per byte in
row-major order.  No code in the repository implements this layout; it is
written out here only to be compared with the actual `Game.serialize`. -/
def specPersistenceRecord (g : Game) : List Nat :=
  beBytes 8 g.points ++ beBytes 4 g.lines ++ beBytes 4 g.level ++
    packNibbles ((all_blots g.board).map fun x => specCellId x.2.2)

/-! ## Concrete inputs used by the witnesses -/

/-- A shuffle oracle whose every outcome is the identity permutation. -/
def trivialShuffles : Nat → List Piece := fun _ => PIECES

/-- The first catalog piece (id 0, `can_be_first`). -/
def piece0 : Piece :=
  (PIECES.get? 0).getD ⟨[], (0, 0, 0), false, false, false, 0⟩

/-- The third catalog piece (id 2). -/
def piece2 : Piece :=
  (PIECES.get? 2).getD ⟨[], (0, 0, 0), false, false, false, 0⟩

def fallingBlot0 : Blot := ⟨BlotType.FALLING, some piece0, false⟩

def fallingCenterBlot0 : Blot := ⟨BlotType.FALLING, some piece0, true⟩

def placedBlot2 : Blot := ⟨BlotType.PLACED, some piece2, false⟩

def boardEmpty : Board := fun _ _ => emptyBlot

/-- One falling cell in the bottom row. -/
def bFallBottom : Board := fun r c => if r = 19 ∧ c = 0 then fallingBlot0 else emptyBlot

/-- One falling cell directly above a placed cell. -/
def bCollide : Board :=
  fun r c =>
    if r = 5 ∧ c = 5 then fallingBlot0
    else if r = 6 ∧ c = 5 then placedBlot2
    else emptyBlot

/-- One falling cell in mid-air. -/
def bMove : Board := fun r c => if r = 5 ∧ c = 5 then fallingBlot0 else emptyBlot

/-- A falling piece whose counterclockwise-rotated left cell would land at
row -1: center at (0,5), body at (0,4) and (0,6). -/
def bRotBlocked : Board :=
  fun r c =>
    if r = 0 ∧ c = 5 then fallingCenterBlot0
    else if r = 0 ∧ (c = 4 ∨ c = 6) then fallingBlot0
    else emptyBlot

/-- A freely rotatable falling piece: center at (5,5), body at (5,4) and (5,6). -/
def bRotFree : Board :=
  fun r c =>
    if r = 5 ∧ c = 5 then fallingCenterBlot0
    else if r = 5 ∧ (c = 4 ∨ c = 6) then fallingBlot0
    else emptyBlot

/-- Row 19 entirely placed, everything else empty. -/
def bRow19 : Board := fun r c => if r = 19 ∧ c < 10 then placedBlot2 else emptyBlot

/-- A well-formed mixed board: a placed cell, a falling center and a falling
body cell. -/
def bMixed : Board :=
  fun r c =>
    if r = 19 ∧ c = 0 then placedBlot2
    else if r = 0 ∧ c = 5 then fallingCenterBlot0
    else if r = 0 ∧ c = 4 then fallingBlot0
    else emptyBlot

/-- A game over a given board, at level 0, frame 0, with a send callback. -/
def mkGame (master : Bool) (b : Board) : Game :=
  { points := 0, lines := 0, level := 0, frame := 0, master := master, board := b
    running_elision_animation := false, elision_rows := [], elision_yielded := 0
    random_piece_generator := ⟨[], trivialShuffles, 0⟩, has_send_to_network := true }

/-- A master tick on which the falling piece locks (bottom row). -/
def lockTickGame : Game := mkGame true bFallBottom

/-- A master tick on which the falling piece just moves down. -/
def moveTickGame : Game := mkGame true bMove

/-- A master game whose row 19 is entirely placed. -/
def gRow19 : Game := mkGame true bRow19

/-- A slave game whose row 19 is entirely placed. -/
def gSlave : Game := mkGame false bRow19

/-- A master game over the mixed well-formed board. -/
def gMixed : Game := mkGame true bMixed

/-- A freshly constructed generator over the trivial oracle. -/
def rpgW : RandomPieceGenerator := RandomPieceGenerator.init piece0 trivialShuffles

/-- Row `r` of the board as the list of its `GAME_WIDTH` cells. -/
def row_list (b : Board) (r : Nat) : List Blot :=
  (List.range GAME_WIDTH).map fun c => b r c

/-- The board as its list of rows. -/
def board_rows (b : Board) : List (List Blot) :=
  (List.range GAME_HEIGHT).map (row_list b)

/-- A row of `GAME_WIDTH` empty cells. -/
def emptyRowList : List Blot := List.replicate GAME_WIDTH emptyBlot

/-- The frame `do_tick` sends on the non-locking master tick `moveTickGame`:
ownership byte 1, then the 200 cell bytes of the moved board (the falling
cell now at row 6, column 5, i.e. cell index 65). -/
def moveFrame : List Nat := 1 :: (List.replicate 65 1 ++ 30 :: List.replicate 134 1)

/-!
# Theorems
-/

/-- Helper: a blot is exactly one of empty / placed / falling. -/
theorem blot_type_cases (x : Blot) :
    (x.is_empty = true ∧ x.is_placed = false ∧ x.is_falling = false)
    ∨ (x.is_empty = false ∧ x.is_placed = true ∧ x.is_falling = false)
    ∨ (x.is_empty = false ∧ x.is_placed = false ∧ x.is_falling = true) := by
  cases h : x.type <;>
    simp [Blot.is_empty, Blot.is_placed, Blot.is_falling, h]

/-- C10: on a non-master engine, `do_fall` without the `even_if_slave`
override returns `false` and leaves the board unchanged, and
`elide_tetrises` leaves the whole game state unchanged (even when full placed
rows exist): gravity, locking, row clearing and scoring are master-gated. -/
theorem slave_gated (b : Board) (g : Game) (hg : g.master = false) :
    do_fall false false b = some (b, false) ∧ elide_tetrises g = some g := by
  refine ⟨rfl, ?_⟩
  unfold elide_tetrises
  rw [hg]
  rfl

/-- Witness for C10: a slave game whose row 19 is entirely placed. -/
theorem slave_gated_witness :
    gSlave.master = false ∧
      (do_fall false false bRow19 = some (bRow19, false)
        ∧ elide_tetrises gSlave = some gSlave) :=
  ⟨rfl, slave_gated bRow19 gSlave rfl⟩

/-- C9: a received line whose frame (after stripping a trailing newline byte)
does not have the expected `GAME_WIDTH * GAME_HEIGHT + 1 = 201` bytes is
dropped by `check_network` without raising and without touching the game
state. -/
theorem check_network_drops_bad_length (g : Game) (line : List Nat)
    (h : (if line.getLast? = some 10 then line.dropLast else line).length
        ≠ GAME_WIDTH * GAME_HEIGHT + 1) :
    check_network g line = some g := by
  unfold check_network
  by_cases hl : line = []
  · simp [hl]
  · simp only [if_neg hl]
    exact if_pos h

/-- Witness for C9: a two-byte line is dropped. -/
theorem check_network_drops_bad_length_witness :
    (if ([5, 5] : List Nat).getLast? = some 10 then ([5, 5] : List Nat).dropLast
        else ([5, 5] : List Nat)).length ≠ GAME_WIDTH * GAME_HEIGHT + 1
      ∧ check_network gRow19 [5, 5] = some gRow19 :=
  ⟨by decide, check_network_drops_bad_length gRow19 [5, 5] (by decide)⟩

/-- C6: clearing `n ∈ {1,2,3,4}` rows at level `L` adds
`{1:40, 2:100, 3:300, 4:1200}[n] * (L + 1)` to `points`, adds `n` to `lines`,
and recomputes `level` as the integer division `lines / 10` of the updated
line count. -/
theorem add_points_for_elision_spec (g : Game) (n : Nat)
    (hn : n = 1 ∨ n = 2 ∨ n = 3 ∨ n = 4) :
    add_points_for_elision g n = some
      { g with
        points := g.points + (multiplier_for_line_count n).getD 0 * (g.level + 1)
        lines := g.lines + n
        level := (g.lines + n) / 10 } := by
  rcases hn with rfl | rfl | rfl | rfl <;> rfl

/-- Witness for C6: one cleared row at level 0 awards 40 points. -/
theorem add_points_for_elision_spec_witness :
    add_points_for_elision gRow19 1 = some
      { gRow19 with
        points := gRow19.points + (multiplier_for_line_count 1).getD 0 * (gRow19.level + 1)
        lines := gRow19.lines + 1
        level := (gRow19.lines + 1) / 10 } :=
  add_points_for_elision_spec gRow19 1 (Or.inl rfl)

/-- Helper: when the buffer holds more than 2 entries, the refill is a no-op. -/
theorem fill_skip (g : RandomPieceGenerator) (h : 2 < g.next_pieces_buffer.length) :
    g.fill_buffer_if_needed = g := by
  unfold RandomPieceGenerator.fill_buffer_if_needed
  rw [if_pos h]

/-- Helper: when the buffer holds 2 or fewer entries, the refill appends the
next oracle batch whole. -/
theorem fill_append (g : RandomPieceGenerator) (h : g.next_pieces_buffer.length ≤ 2) :
    g.fill_buffer_if_needed =
      { g with
        next_pieces_buffer := g.next_pieces_buffer ++ g.shuffles g.shuffleIdx
        shuffleIdx := g.shuffleIdx + 1 } := by
  unfold RandomPieceGenerator.fill_buffer_if_needed
  rw [if_neg (by omega)]

/-- Helper: the refill never shrinks the buffer. -/
theorem fill_length (g : RandomPieceGenerator) :
    g.next_pieces_buffer.length ≤ g.fill_buffer_if_needed.next_pieces_buffer.length := by
  by_cases h : 2 < g.next_pieces_buffer.length
  · rw [fill_skip g h]
  · rw [fill_append g (by omega)]
    simp

/-- Helper: on every reachable generator state the oracle field is the
session's oracle and the buffer holds at least 2 pieces. -/
theorem rpg_reachable_invariant (shuffles : Nat → List Piece)
    (hperm : ∀ n, (shuffles n).Perm PIECES)
    (g : RandomPieceGenerator) (hg : RandomPieceGenerator.Reachable shuffles g) :
    g.shuffles = shuffles ∧ 2 ≤ g.next_pieces_buffer.length := by
  have h7 : PIECES.length = 7 := by decide
  induction hg with
  | init seed hseed =>
    have hfill := fill_append
      ⟨[seed], shuffles, 0⟩ (by simp)
    refine ⟨?_, ?_⟩
    · show (RandomPieceGenerator.init seed shuffles).shuffles = shuffles
      unfold RandomPieceGenerator.init
      rw [hfill]
    · show 2 ≤ (RandomPieceGenerator.init seed shuffles).next_pieces_buffer.length
      unfold RandomPieceGenerator.init
      rw [hfill]
      have hl0 : (shuffles 0).length = PIECES.length := (hperm 0).length_eq
      simp [hl0, h7]
  | step g p g1 hg hn ih =>
    obtain ⟨ihs, ihl⟩ := ih
    unfold RandomPieceGenerator.next at hn
    have hfs : g.fill_buffer_if_needed.shuffles = shuffles := by
      by_cases h : 2 < g.next_pieces_buffer.length
      · rw [fill_skip g h]; exact ihs
      · rw [fill_append g (by omega)]; exact ihs
    have hfl : 7 ≤ g.fill_buffer_if_needed.next_pieces_buffer.length ∨
        3 ≤ g.fill_buffer_if_needed.next_pieces_buffer.length := by
      by_cases h : 2 < g.next_pieces_buffer.length
      · right; rw [fill_skip g h]; omega
      · left
        rw [fill_append g (by omega)]
        have hl : (g.shuffles g.shuffleIdx).length = PIECES.length := by
          rw [ihs]; exact (hperm g.shuffleIdx).length_eq
        simp [hl, h7]
    rcases hb : g.fill_buffer_if_needed.next_pieces_buffer with _ | ⟨q, rest⟩
    · rw [hb] at hn
      exact absurd hn (by simp)
    · rw [hb] at hn
      simp only [Option.some.injEq, Prod.mk.injEq] at hn
      obtain ⟨-, hg1⟩ := hn
      rw [← hg1]
      refine ⟨hfs, ?_⟩
      rw [hb] at hfl
      simp only [List.length_cons] at hfl
      simp only [List.length_cons]
      omega

/-- C5: over a shuffle oracle whose outcomes are permutations of `PIECES`
(the contract of `random.shuffle` on a copy of the catalog), every refill
batch appended by `_fill_buffer_if_needed` is one whole such permutation, the
refill fires exactly when the buffer holds 2 or fewer entries, and on every
reachable state the buffer is nonempty, so `next()` and `peek()` both return
a piece. -/
theorem rpg_spec (shuffles : Nat → List Piece) (hperm : ∀ n, (shuffles n).Perm PIECES)
    (g : RandomPieceGenerator) (hg : RandomPieceGenerator.Reachable shuffles g) :
    (g.next_pieces_buffer.length ≤ 2 →
        g.fill_buffer_if_needed.next_pieces_buffer
            = g.next_pieces_buffer ++ shuffles g.shuffleIdx
          ∧ (shuffles g.shuffleIdx).Perm PIECES)
      ∧ (2 < g.next_pieces_buffer.length → g.fill_buffer_if_needed = g)
      ∧ g.next_pieces_buffer ≠ []
      ∧ (∃ p g1, g.next = some (p, g1))
      ∧ (∃ p, g.peek = some p) := by
  obtain ⟨hsh, hlen⟩ := rpg_reachable_invariant shuffles hperm g hg
  have hne : g.next_pieces_buffer ≠ [] := by
    intro hnil
    rw [hnil] at hlen
    exact absurd hlen (by decide)
  refine ⟨?_, fill_skip g, hne, ?_, ?_⟩
  · intro h
    rw [fill_append g h, hsh]
    exact ⟨rfl, hperm g.shuffleIdx⟩
  · have hfl : 2 ≤ g.fill_buffer_if_needed.next_pieces_buffer.length :=
      le_trans hlen (fill_length g)
    unfold RandomPieceGenerator.next
    rcases hb : g.fill_buffer_if_needed.next_pieces_buffer with _ | ⟨q, rest⟩
    · rw [hb] at hfl
      exact absurd hfl (by decide)
    · exact ⟨q, _, rfl⟩
  · unfold RandomPieceGenerator.peek
    rcases hb : g.next_pieces_buffer with _ | ⟨q, rest⟩
    · exact absurd hb hne
    · exact ⟨q, rfl⟩

/-- Witness for C5: the fresh generator seeded with the first catalog piece
over the identity oracle. -/
theorem rpg_spec_witness :
    (rpgW.next_pieces_buffer.length ≤ 2 →
        rpgW.fill_buffer_if_needed.next_pieces_buffer
            = rpgW.next_pieces_buffer ++ trivialShuffles rpgW.shuffleIdx
          ∧ (trivialShuffles rpgW.shuffleIdx).Perm PIECES)
      ∧ (2 < rpgW.next_pieces_buffer.length → rpgW.fill_buffer_if_needed = rpgW)
      ∧ rpgW.next_pieces_buffer ≠ []
      ∧ (∃ p g1, rpgW.next = some (p, g1))
      ∧ (∃ p, rpgW.peek = some p) :=
  rpg_spec trivialShuffles (fun _ => List.Perm.refl PIECES) rpgW
    (RandomPieceGenerator.Reachable.init piece0 (by decide))

set_option maxRecDepth 40000 in
/-- C4 (against the claim): on the very tick on which the master's piece
locks, `do_tick` clears `master` *before* evaluating the
`if self.master and self.send_to_network` guard, so it emits no frame at all
(first conjunct).  Frames are only emitted while `master` is still true, and
`serialize` writes ownership byte 2 only when `master` is false, so an
emitted frame carries ownership byte 1 (second and third conjuncts: the
non-locking master tick `moveTickGame` sends `moveFrame`, whose first byte is
1).  The receiving half of the claim does hold: `unserialize` sets `master`
on ownership byte 2 and leaves it alone on byte 1 (last two conjuncts). -/
theorem do_tick_lock_emits_no_frame :
    (do_tick lockTickGame).map (fun p => (p.1.master, p.2)) = some (false, none)
      ∧ (do_tick moveTickGame).map (fun p => p.2) = some (some (some moveFrame))
      ∧ moveFrame.head? = some 1
      ∧ (gSlave.unserialize (2 :: List.replicate 200 1)).map Game.master = some true
      ∧ (gSlave.unserialize (1 :: List.replicate 200 1)).map Game.master = some false := by
  refine ⟨?_, ?_, ?_, ?_, ?_⟩ <;> decide

/-- Helper: a falling blot is not placed. -/
theorem falling_not_placed {x : Blot} (h : x.is_falling = true) : x.is_placed = false := by
  rcases blot_type_cases x with ⟨_, h2, h3⟩ | ⟨_, _, h3⟩ | ⟨_, h2, _⟩ <;> simp_all

/-- Helper: a placed blot is not falling. -/
theorem placed_not_falling {x : Blot} (h : x.is_placed = true) : x.is_falling = false := by
  rcases blot_type_cases x with ⟨_, h2, h3⟩ | ⟨_, _, h3⟩ | ⟨_, h2, _⟩ <;> simp_all

/-- Helper: a blot that is neither falling nor placed is empty. -/
theorem not_falling_not_placed_empty {x : Blot} (h1 : x.is_falling = false)
    (h2 : x.is_placed = false) : x.is_empty = true := by
  rcases blot_type_cases x with ⟨h3, _, _⟩ | ⟨_, h3, _⟩ | ⟨_, _, h3⟩ <;> simp_all

theorem setCell_same (b : Board) (row col : Nat) (x : Blot) :
    setCell b row col x row col = x := by
  simp [setCell]

theorem setCell_other (b : Board) (row col : Nat) (x : Blot) {r c : Nat}
    (h : ¬(r = row ∧ c = col)) : setCell b row col x r c = b r c := by
  unfold setCell
  rw [if_neg h]

theorem shiftRow_nil (b : Board) (row : Nat) : shiftRow b row [] = b := by
  funext r c
  simp [shiftRow]

/-- Helper: a non-falling head column drops out of `shiftRow`. -/
theorem shiftRow_skip (b : Board) (row c : Nat) (cs : List Nat)
    (hf : (b row c).is_falling = false) :
    shiftRow b row (c :: cs) = shiftRow b row cs := by
  funext r' c'
  unfold shiftRow
  by_cases hcc : c' = c
  · subst hcc
    rw [if_neg (by simp [hf]), if_neg (by simp [hf])]
    by_cases h1 : r' = row + 1 ∧ c' ∈ cs ∧ (b row c').is_falling = true
    · exact absurd h1.2.2 (by simp [hf])
    · rw [if_neg h1]
      by_cases h2 : r' = row ∧ c' ∈ cs ∧ (b row c').is_falling = true
      · exact absurd h2.2.2 (by simp [hf])
      · rw [if_neg h2]
  · simp only [List.mem_cons]
    by_cases h1 : r' = row + 1 ∧ c' ∈ cs ∧ (b row c').is_falling = true
    · rw [if_pos ⟨h1.1, Or.inr h1.2.1, h1.2.2⟩, if_pos h1]
    · rw [if_neg (by rintro ⟨ha, hb | hb, hc⟩; exact hcc hb; exact h1 ⟨ha, hb, hc⟩), if_neg h1]
      by_cases h2 : r' = row ∧ c' ∈ cs ∧ (b row c').is_falling = true
      · rw [if_pos ⟨h2.1, Or.inr h2.2.1, h2.2.2⟩, if_pos h2]
      · rw [if_neg (by rintro ⟨ha, hb | hb, hc⟩; exact hcc hb; exact h2 ⟨ha, hb, hc⟩), if_neg h2]

/-- Helper: processing the falling cell `(row, c)` (move it one row down,
empty its old cell) and then shifting the remaining columns equals shifting
all of `c :: cs`. -/
theorem shiftRow_step (b : Board) (row c : Nat) (cs : List Nat) (hcn : c ∉ cs)
    (hf : (b row c).is_falling = true) :
    shiftRow (setCell (setCell b (row + 1) c (b row c)) row c emptyBlot) row cs
      = shiftRow b row (c :: cs) := by
  set b2 : Board := setCell (setCell b (row + 1) c (b row c)) row c emptyBlot with hb2
  have e1 : b2 row c = emptyBlot := setCell_same _ _ _ _
  have e2 : b2 (row + 1) c = b row c := by
    rw [hb2, setCell_other _ _ _ _ (by rintro ⟨h, -⟩; omega), setCell_same]
  have e3 : ∀ c', c' ≠ c → ∀ r', b2 r' c' = b r' c' := by
    intro c' hcc r'
    rw [hb2, setCell_other _ _ _ _ (fun h => hcc h.2),
      setCell_other _ _ _ _ (fun h => hcc h.2)]
  have e4 : ∀ r', r' ≠ row → r' ≠ row + 1 → b2 r' c = b r' c := by
    intro r' h1 h2
    rw [hb2, setCell_other _ _ _ _ (fun h => h1 h.1), setCell_other _ _ _ _ (fun h => h2 h.1)]
  funext r' c'
  unfold shiftRow
  by_cases hcc : c' = c
  · subst hcc
    rw [if_neg (show ¬(r' = row + 1 ∧ c' ∈ cs ∧ (b2 row c').is_falling = true) from
          fun h => hcn h.2.1),
        if_neg (show ¬(r' = row ∧ c' ∈ cs ∧ (b2 row c').is_falling = true) from
          fun h => hcn h.2.1)]
    by_cases h1 : r' = row + 1
    · rw [if_pos ⟨h1, List.mem_cons_self c' cs, hf⟩, h1, e2]
    · rw [if_neg (show ¬(r' = row + 1 ∧ c' ∈ c' :: cs ∧ (b row c').is_falling = true) from
            fun h => h1 h.1)]
      by_cases h2 : r' = row
      · rw [if_pos ⟨h2, List.mem_cons_self c' cs, hf⟩, h2, e1]
      · rw [if_neg (show ¬(r' = row ∧ c' ∈ c' :: cs ∧ (b row c').is_falling = true) from
              fun h => h2 h.1)]
        exact e4 r' h2 h1
  · rw [e3 c' hcc]
    have hm : (c' ∈ c :: cs) ↔ (c' ∈ cs) := by simp [hcc]
    by_cases h1 : r' = row + 1 ∧ c' ∈ cs ∧ (b row c').is_falling = true
    · rw [if_pos h1, if_pos ⟨h1.1, hm.mpr h1.2.1, h1.2.2⟩]
    · rw [if_neg h1,
          if_neg (show ¬(r' = row + 1 ∧ c' ∈ c :: cs ∧ (b row c').is_falling = true) from
            fun h => h1 ⟨h.1, hm.mp h.2.1, h.2.2⟩)]
      by_cases h2 : r' = row ∧ c' ∈ cs ∧ (b row c').is_falling = true
      · rw [if_pos h2, if_pos ⟨h2.1, hm.mpr h2.2.1, h2.2.2⟩]
      · rw [if_neg h2,
            if_neg (show ¬(r' = row ∧ c' ∈ c :: cs ∧ (b row c').is_falling = true) from
              fun h => h2 ⟨h.1, hm.mp h.2.1, h.2.2⟩)]
        exact e3 c' hcc r'

/-- Helper: one unfolding step of `fall_loop`. -/
theorem fall_loop_cons (b : Board) (row col : Nat) (rest : List (Nat × Nat)) :
    fall_loop b ((row, col) :: rest) =
      if (b row col).is_falling = true then
        if (b (row + 1) col).is_placed = true then Except.error FallErr.collision
        else
          match put_or_die b (row + 1) col (b row col) with
          | none => Except.error FallErr.gameOver
          | some b1 => fall_loop (setCell b1 row col emptyBlot) rest
      else fall_loop b rest := rfl

/-- Helper: moving the falling cell `(row, c)` down does not change any cell
in another column. -/
theorem processCell_other (b : Board) (row c : Nat) {c' : Nat} (hcc : c' ≠ c) (r' : Nat) :
    setCell (setCell b (row + 1) c (b row c)) row c emptyBlot r' c' = b r' c' := by
  rw [setCell_other _ _ _ _ (fun h => hcc h.2), setCell_other _ _ _ _ (fun h => hcc h.2)]

/-- Helper: over one row with no falling cells below it and no placed cell
below any of its falling cells, the `do_fall` loop succeeds and shifts each
falling cell of the row one row down. -/
theorem fall_row_ok (row : Nat) : ∀ (cs : List Nat) (b : Board), cs.Nodup →
    (∀ c ∈ cs, ¬((b row c).is_falling = true ∧ (b (row + 1) c).is_placed = true)) →
    (∀ c ∈ cs, (b (row + 1) c).is_falling = false) →
    fall_loop b (cs.map fun c => (row, c)) = Except.ok (shiftRow b row cs) := by
  intro cs
  induction cs with
  | nil =>
    intro b _ _ _
    rw [shiftRow_nil]
    rfl
  | cons c cs ih =>
    intro b hnd hcol hbelow
    have hcn : c ∉ cs := (List.nodup_cons.mp hnd).1
    have hnd' : cs.Nodup := (List.nodup_cons.mp hnd).2
    rw [List.map_cons, fall_loop_cons]
    by_cases hf : (b row c).is_falling = true
    · rw [if_pos hf]
      have hp : (b (row + 1) c).is_placed = false := by
        rcases Bool.eq_false_or_eq_true ((b (row + 1) c).is_placed) with h | h
        · exact absurd ⟨hf, h⟩ (hcol c (List.mem_cons_self c cs))
        · exact h
      rw [if_neg (by simp [hp])]
      have hemp : (b (row + 1) c).is_empty = true :=
        not_falling_not_placed_empty (hbelow c (List.mem_cons_self c cs)) hp
      simp only [put_or_die, if_pos hemp]
      rw [ih (setCell (setCell b (row + 1) c (b row c)) row c emptyBlot) hnd'
            (fun c' hc' => by
              rw [processCell_other b row c (ne_of_mem_of_not_mem hc' hcn) row,
                processCell_other b row c (ne_of_mem_of_not_mem hc' hcn) (row + 1)]
              exact hcol c' (List.mem_cons_of_mem c hc'))
            (fun c' hc' => by
              rw [processCell_other b row c (ne_of_mem_of_not_mem hc' hcn) (row + 1)]
              exact hbelow c' (List.mem_cons_of_mem c hc')),
          shiftRow_step b row c cs hcn hf]
    · rw [if_neg hf]
      have hf' : (b row c).is_falling = false := by
        rcases Bool.eq_false_or_eq_true ((b row c).is_falling) with h | h
        · exact absurd h hf
        · exact h
      rw [ih b hnd' (fun c' hc' => hcol c' (List.mem_cons_of_mem c hc'))
            (fun c' hc' => hbelow c' (List.mem_cons_of_mem c hc')),
          shiftRow_skip b row c cs hf']

/-- Helper: over one row with no falling cells below it, if some falling cell
of the row has a placed cell below it, the `do_fall` loop aborts with a
collision. -/
theorem fall_row_collision (row : Nat) : ∀ (cs : List Nat) (b : Board), cs.Nodup →
    (∀ c ∈ cs, (b (row + 1) c).is_falling = false) →
    (∃ c ∈ cs, (b row c).is_falling = true ∧ (b (row + 1) c).is_placed = true) →
    fall_loop b (cs.map fun c => (row, c)) = Except.error FallErr.collision := by
  intro cs
  induction cs with
  | nil =>
    rintro b - - ⟨c, hc, -⟩
    exact absurd hc (List.not_mem_nil c)
  | cons c cs ih =>
    intro b hnd hbelow hex
    have hcn : c ∉ cs := (List.nodup_cons.mp hnd).1
    have hnd' : cs.Nodup := (List.nodup_cons.mp hnd).2
    rw [List.map_cons, fall_loop_cons]
    by_cases hc : (b row c).is_falling = true ∧ (b (row + 1) c).is_placed = true
    · rw [if_pos hc.1, if_pos hc.2]
    · obtain ⟨c0, hc0mem, hc0⟩ := hex
      have hc0cs : c0 ∈ cs := by
        rcases List.mem_cons.mp hc0mem with rfl | h
        · exact absurd hc0 hc
        · exact h
      have hc0c : c0 ≠ c := ne_of_mem_of_not_mem hc0cs hcn
      by_cases hf : (b row c).is_falling = true
      · rw [if_pos hf]
        have hp : (b (row + 1) c).is_placed = false := by
          rcases Bool.eq_false_or_eq_true ((b (row + 1) c).is_placed) with h | h
          · exact absurd ⟨hf, h⟩ hc
          · exact h
        rw [if_neg (by simp [hp])]
        have hemp : (b (row + 1) c).is_empty = true :=
          not_falling_not_placed_empty (hbelow c (List.mem_cons_self c cs)) hp
        simp only [put_or_die, if_pos hemp]
        apply ih _ hnd'
        · intro c' hc'
          rw [processCell_other b row c (ne_of_mem_of_not_mem hc' hcn) (row + 1)]
          exact hbelow c' (List.mem_cons_of_mem c hc')
        · exact ⟨c0, hc0cs, by
            rw [processCell_other b row c hc0c row, processCell_other b row c hc0c (row + 1)]
            exact hc0⟩
      · rw [if_neg hf]
        exact ih b hnd' (fun c' hc' => hbelow c' (List.mem_cons_of_mem c hc'))
          ⟨c0, hc0cs, hc0⟩

/-- Helper: processing row `k` on top of the moves of rows `< k` extends the
accumulated move to rows `< k + 1`. -/
theorem moveUpTo_step (b : Board) (k : Nat) :
    moveUpTo (shiftRow b k (List.range GAME_WIDTH)) k = moveUpTo b (k + 1) := by
  have s1 : ∀ r c, r ≠ k → r ≠ k + 1 → shiftRow b k (List.range GAME_WIDTH) r c = b r c := by
    intro r c h1 h2
    unfold shiftRow
    rw [if_neg (fun h => h2 h.1), if_neg (fun h => h1 h.1)]
  have s2a : ∀ c, c < GAME_WIDTH → (b k c).is_falling = true →
      shiftRow b k (List.range GAME_WIDTH) (k + 1) c = b k c := by
    intro c hc hf
    unfold shiftRow
    rw [if_pos ⟨rfl, List.mem_range.mpr hc, hf⟩]
  have s2b : ∀ c, ¬(c < GAME_WIDTH ∧ (b k c).is_falling = true) →
      shiftRow b k (List.range GAME_WIDTH) (k + 1) c = b (k + 1) c := by
    intro c hc
    unfold shiftRow
    rw [if_neg (fun h => hc ⟨List.mem_range.mp h.2.1, h.2.2⟩),
        if_neg (fun h => Nat.succ_ne_self k h.1)]
  have s3a : ∀ c, c < GAME_WIDTH → (b k c).is_falling = true →
      shiftRow b k (List.range GAME_WIDTH) k c = emptyBlot := by
    intro c hc hf
    unfold shiftRow
    rw [if_neg (fun h => Nat.succ_ne_self k h.1.symm),
        if_pos ⟨rfl, List.mem_range.mpr hc, hf⟩]
  have s3b : ∀ c, ¬(c < GAME_WIDTH ∧ (b k c).is_falling = true) →
      shiftRow b k (List.range GAME_WIDTH) k c = b k c := by
    intro c hc
    unfold shiftRow
    rw [if_neg (fun h => Nat.succ_ne_self k h.1.symm),
        if_neg (fun h => hc ⟨List.mem_range.mp h.2.1, h.2.2⟩)]
  funext r c
  unfold moveUpTo
  rcases Nat.lt_trichotomy r k with hr | hr | hr
  · -- rows strictly below row k are untouched by the row step
    have e0 : shiftRow b k (List.range GAME_WIDTH) r c = b r c := s1 r c (by omega) (by omega)
    have e1 : shiftRow b k (List.range GAME_WIDTH) (r - 1) c = b (r - 1) c :=
      s1 _ c (by omega) (by omega)
    by_cases h1 : c < GAME_WIDTH ∧ 1 ≤ r ∧ (b (r - 1) c).is_falling = true
    · rw [if_pos ⟨h1.1, h1.2.1, by omega, e1.symm ▸ h1.2.2⟩,
          if_pos ⟨h1.1, h1.2.1, by omega, h1.2.2⟩, e1]
    · rw [if_neg (show ¬(c < GAME_WIDTH ∧ 1 ≤ r ∧ r ≤ k ∧
              (shiftRow b k (List.range GAME_WIDTH) (r - 1) c).is_falling = true) from
            fun h => h1 ⟨h.1, h.2.1, e1 ▸ h.2.2.2⟩),
          if_neg (show ¬(c < GAME_WIDTH ∧ 1 ≤ r ∧ r ≤ k + 1 ∧ (b (r - 1) c).is_falling = true)
            from fun h => h1 ⟨h.1, h.2.1, h.2.2.2⟩)]
      by_cases h2 : c < GAME_WIDTH ∧ (b r c).is_falling = true
      · rw [if_pos ⟨h2.1, hr, e0.symm ▸ h2.2⟩, if_pos ⟨h2.1, by omega, h2.2⟩]
      · rw [if_neg (show ¬(c < GAME_WIDTH ∧ r < k ∧
                (shiftRow b k (List.range GAME_WIDTH) r c).is_falling = true) from
              fun h => h2 ⟨h.1, e0 ▸ h.2.2⟩),
            if_neg (show ¬(c < GAME_WIDTH ∧ r < k + 1 ∧ (b r c).is_falling = true) from
              fun h => h2 ⟨h.1, h.2.2⟩), e0]
  · -- row k itself: its falling cells were emptied, nothing else in it changed
    subst hr
    by_cases hk : 1 ≤ r
    · have e1 : shiftRow b r (List.range GAME_WIDTH) (r - 1) c = b (r - 1) c :=
        s1 _ c (by omega) (by omega)
      by_cases h1 : c < GAME_WIDTH ∧ (b (r - 1) c).is_falling = true
      · rw [if_pos ⟨h1.1, hk, le_refl r, e1.symm ▸ h1.2⟩,
            if_pos ⟨h1.1, hk, by omega, h1.2⟩, e1]
      · rw [if_neg (show ¬(c < GAME_WIDTH ∧ 1 ≤ r ∧ r ≤ r ∧
                (shiftRow b r (List.range GAME_WIDTH) (r - 1) c).is_falling = true) from
              fun h => h1 ⟨h.1, e1 ▸ h.2.2.2⟩),
            if_neg (show ¬(c < GAME_WIDTH ∧ 1 ≤ r ∧ r ≤ r + 1 ∧ (b (r - 1) c).is_falling = true)
              from fun h => h1 ⟨h.1, h.2.2.2⟩),
            if_neg (show ¬(c < GAME_WIDTH ∧ r < r ∧
                (shiftRow b r (List.range GAME_WIDTH) r c).is_falling = true) from
              fun h => absurd h.2.1 (lt_irrefl r))]
        by_cases h2 : c < GAME_WIDTH ∧ (b r c).is_falling = true
        · rw [if_pos ⟨h2.1, Nat.lt_succ_self r, h2.2⟩]
          exact s3a c h2.1 h2.2
        · rw [if_neg (show ¬(c < GAME_WIDTH ∧ r < r + 1 ∧ (b r c).is_falling = true) from
              fun h => h2 ⟨h.1, h.2.2⟩)]
          exact s3b c h2
    · have hr0 : r = 0 := by omega
      subst hr0
      rw [if_neg (show ¬(c < GAME_WIDTH ∧ 1 ≤ 0 ∧ 0 ≤ 0 ∧
              (shiftRow b 0 (List.range GAME_WIDTH) (0 - 1) c).is_falling = true) from
            fun h => by omega),
          if_neg (show ¬(c < GAME_WIDTH ∧ 1 ≤ 0 ∧ 0 ≤ 0 + 1 ∧ (b (0 - 1) c).is_falling = true)
            from fun h => by omega),
          if_neg (show ¬(c < GAME_WIDTH ∧ 0 < 0 ∧
              (shiftRow b 0 (List.range GAME_WIDTH) 0 c).is_falling = true) from
            fun h => by omega)]
      by_cases h2 : c < GAME_WIDTH ∧ (b 0 c).is_falling = true
      · rw [if_pos ⟨h2.1, Nat.lt_succ_self 0, h2.2⟩]
        exact s3a c h2.1 h2.2
      · rw [if_neg (show ¬(c < GAME_WIDTH ∧ 0 < 0 + 1 ∧ (b 0 c).is_falling = true) from
            fun h => h2 ⟨h.1, h.2.2⟩)]
        exact s3b c h2
  · -- rows below row k + 1
    by_cases hr1 : r = k + 1
    · subst hr1
      rw [if_neg (show ¬(c < GAME_WIDTH ∧ 1 ≤ k + 1 ∧ k + 1 ≤ k ∧
              (shiftRow b k (List.range GAME_WIDTH) (k + 1 - 1) c).is_falling = true) from
            fun h => by omega),
          if_neg (show ¬(c < GAME_WIDTH ∧ k + 1 < k ∧
              (shiftRow b k (List.range GAME_WIDTH) (k + 1) c).is_falling = true) from
            fun h => by omega)]
      by_cases h2 : c < GAME_WIDTH ∧ (b k c).is_falling = true
      · rw [if_pos (show c < GAME_WIDTH ∧ 1 ≤ k + 1 ∧ k + 1 ≤ k + 1 ∧
              (b (k + 1 - 1) c).is_falling = true from ⟨h2.1, by omega, le_refl _, h2.2⟩)]
        exact s2a c h2.1 h2.2
      · rw [if_neg (show ¬(c < GAME_WIDTH ∧ 1 ≤ k + 1 ∧ k + 1 ≤ k + 1 ∧
                (b (k + 1 - 1) c).is_falling = true) from fun h => h2 ⟨h.1, h.2.2.2⟩),
            if_neg (show ¬(c < GAME_WIDTH ∧ k + 1 < k + 1 ∧ (b (k + 1) c).is_falling = true)
              from fun h => by omega)]
        exact s2b c h2
    · have e0 : shiftRow b k (List.range GAME_WIDTH) r c = b r c := s1 r c (by omega) (by omega)
      rw [if_neg (show ¬(c < GAME_WIDTH ∧ 1 ≤ r ∧ r ≤ k ∧
              (shiftRow b k (List.range GAME_WIDTH) (r - 1) c).is_falling = true) from
            fun h => by omega),
          if_neg (show ¬(c < GAME_WIDTH ∧ r < k ∧
              (shiftRow b k (List.range GAME_WIDTH) r c).is_falling = true) from
            fun h => by omega),
          if_neg (show ¬(c < GAME_WIDTH ∧ 1 ≤ r ∧ r ≤ k + 1 ∧ (b (r - 1) c).is_falling = true)
            from fun h => by omega),
          if_neg (show ¬(c < GAME_WIDTH ∧ r < k + 1 ∧ (b r c).is_falling = true) from
            fun h => by omega), e0]

/-- Helper: `fall_loop` over an appended list runs the first part, then the
second from the first part's result (errors short-circuit). -/
theorem fall_loop_append (l1 : List (Nat × Nat)) : ∀ (b : Board) (l2 : List (Nat × Nat)),
    fall_loop b (l1 ++ l2) =
      match fall_loop b l1 with
      | Except.ok b1 => fall_loop b1 l2
      | Except.error e => Except.error e := by
  induction l1 with
  | nil => intro b l2; rfl
  | cons hd tl ih =>
    intro b l2
    obtain ⟨row, col⟩ := hd
    rw [List.cons_append, fall_loop_cons, fall_loop_cons]
    by_cases hf : (b row col).is_falling = true
    · rw [if_pos hf, if_pos hf]
      by_cases hp : (b (row + 1) col).is_placed = true
      · rw [if_pos hp, if_pos hp]
      · rw [if_neg hp, if_neg hp]
        rcases hd : put_or_die b (row + 1) col (b row col) with - | b1
        · rfl
        · exact ih _ l2
    · rw [if_neg hf, if_neg hf]
      exact ih b l2

/-- Helper: the row decomposition of the fall iteration order. -/
theorem rows_cells_succ (k : Nat) : rows_cells (k + 1) = row_cells k ++ rows_cells k := by
  unfold rows_cells
  rw [List.range_succ, List.reverse_append, List.reverse_singleton, List.singleton_append,
    List.flatMap_cons]

theorem rows_cells_zero : rows_cells 0 = [] := rfl

theorem moveUpTo_zero (b : Board) : moveUpTo b 0 = b := by
  funext r c
  unfold moveUpTo
  rw [if_neg (fun h => by omega), if_neg (fun h => by omega)]

/-- Helper: when row `k` holds no falling cell and no falling cell in the
rows below it sits on a placed cell, the `do_fall` loop over rows
`k-1, …, 0` succeeds and moves every falling cell in those rows down one
row. -/
theorem fall_rows_ok : ∀ (k : Nat) (b : Board),
    (∀ c, c < GAME_WIDTH → (b k c).is_falling = false) →
    (∀ r c, r < k → c < GAME_WIDTH →
      ¬((b r c).is_falling = true ∧ (b (r + 1) c).is_placed = true)) →
    fall_loop b (rows_cells k) = Except.ok (moveUpTo b k) := by
  intro k
  induction k with
  | zero =>
    intro b _ _
    rw [rows_cells_zero, moveUpTo_zero]
    rfl
  | succ k ih =>
    intro b h1 h2
    rw [rows_cells_succ, fall_loop_append]
    have hrow : fall_loop b (row_cells k) = Except.ok (shiftRow b k (List.range GAME_WIDTH)) := by
      apply fall_row_ok k (List.range GAME_WIDTH) b (List.nodup_range GAME_WIDTH)
      · intro c hc
        exact h2 k c (Nat.lt_succ_self k) (List.mem_range.mp hc)
      · intro c hc
        exact h1 c (List.mem_range.mp hc)
    rw [hrow]
    show fall_loop (shiftRow b k (List.range GAME_WIDTH)) (rows_cells k)
      = Except.ok (moveUpTo b (k + 1))
    have hs1 : ∀ r c, r ≠ k → r ≠ k + 1 →
        shiftRow b k (List.range GAME_WIDTH) r c = b r c := by
      intro r c ha hb
      unfold shiftRow
      rw [if_neg (fun h => hb h.1), if_neg (fun h => ha h.1)]
    have hsk : ∀ c, c < GAME_WIDTH →
        (shiftRow b k (List.range GAME_WIDTH) k c).is_falling = false := by
      intro c hc
      unfold shiftRow
      rw [if_neg (fun h => Nat.succ_ne_self k h.1.symm)]
      by_cases hf : (b k c).is_falling = true
      · rw [if_pos ⟨rfl, List.mem_range.mpr hc, hf⟩]
        rfl
      · rw [if_neg (fun h => hf h.2.2)]
        rcases Bool.eq_false_or_eq_true ((b k c).is_falling) with h | h
        · exact absurd h hf
        · exact h
    rw [ih (shiftRow b k (List.range GAME_WIDTH)) hsk ?_, moveUpTo_step]
    intro r c hrk hc
    rintro ⟨hfall, hplace⟩
    rw [hs1 r c (by omega) (by omega)] at hfall
    by_cases hr1 : r + 1 = k
    · subst hr1
      unfold shiftRow at hplace
      rw [if_neg (show ¬(r + 1 = r + 1 + 1 ∧ c ∈ List.range GAME_WIDTH ∧
            (b (r + 1) c).is_falling = true) from fun h => by omega)] at hplace
      by_cases hfk : (b (r + 1) c).is_falling = true
      · rw [if_pos ⟨rfl, List.mem_range.mpr hc, hfk⟩] at hplace
        exact absurd hplace (by decide)
      · rw [if_neg (fun h => hfk h.2.2)] at hplace
        exact h2 r c (by omega) hc ⟨hfall, hplace⟩
    · rw [hs1 (r + 1) c hr1 (by omega)] at hplace
      exact h2 r c (by omega) hc ⟨hfall, hplace⟩

/-- Helper: when row `k` holds no falling cell and some falling cell in the
rows below it sits on a placed cell, the `do_fall` loop over rows
`k-1, …, 0` aborts with a collision. -/
theorem fall_rows_collision : ∀ (k : Nat) (b : Board),
    (∀ c, c < GAME_WIDTH → (b k c).is_falling = false) →
    (∃ r, r < k ∧ ∃ c, c < GAME_WIDTH ∧
      (b r c).is_falling = true ∧ (b (r + 1) c).is_placed = true) →
    fall_loop b (rows_cells k) = Except.error FallErr.collision := by
  intro k
  induction k with
  | zero =>
    rintro b - ⟨r, hr, -⟩
    exact absurd hr (Nat.not_lt_zero r)
  | succ k ih =>
    intro b h1 hex
    rw [rows_cells_succ, fall_loop_append]
    by_cases hrow : ∃ c, c < GAME_WIDTH ∧
        (b k c).is_falling = true ∧ (b (k + 1) c).is_placed = true
    · obtain ⟨c0, hc0, hcol⟩ := hrow
      have hrc : fall_loop b (row_cells k) = Except.error FallErr.collision :=
        fall_row_collision k (List.range GAME_WIDTH) b (List.nodup_range GAME_WIDTH)
          (fun c hc => h1 c (List.mem_range.mp hc))
          ⟨c0, List.mem_range.mpr hc0, hcol⟩
      rw [hrc]
    · have hrowok : fall_loop b (row_cells k)
          = Except.ok (shiftRow b k (List.range GAME_WIDTH)) := by
        apply fall_row_ok k (List.range GAME_WIDTH) b (List.nodup_range GAME_WIDTH)
        · intro c hc
          exact fun hand => hrow ⟨c, List.mem_range.mp hc, hand⟩
        · intro c hc
          exact h1 c (List.mem_range.mp hc)
      rw [hrowok]
      show fall_loop (shiftRow b k (List.range GAME_WIDTH)) (rows_cells k)
        = Except.error FallErr.collision
      have hs1 : ∀ r c, r ≠ k → r ≠ k + 1 →
          shiftRow b k (List.range GAME_WIDTH) r c = b r c := by
        intro r c ha hb
        unfold shiftRow
        rw [if_neg (fun h => hb h.1), if_neg (fun h => ha h.1)]
      apply ih
      · intro c hc
        unfold shiftRow
        rw [if_neg (fun h => Nat.succ_ne_self k h.1.symm)]
        by_cases hf : (b k c).is_falling = true
        · rw [if_pos ⟨rfl, List.mem_range.mpr hc, hf⟩]
          rfl
        · rw [if_neg (fun h => hf h.2.2)]
          rcases Bool.eq_false_or_eq_true ((b k c).is_falling) with h | h
          · exact absurd h hf
          · exact h
      · obtain ⟨r, hr, c, hc, hfall, hplace⟩ := hex
        have hrk : r < k := by
          rcases Nat.lt_succ_iff_lt_or_eq.mp hr with h | h
          · exact h
          · exact absurd ⟨c, hc, h ▸ hfall, h ▸ hplace⟩ hrow
        refine ⟨r, hrk, c, hc, ?_, ?_⟩
        · rw [hs1 r c (by omega) (by omega)]
          exact hfall
        · by_cases hr1 : r + 1 = k
          · subst hr1
            unfold shiftRow
            have hnf : (b (r + 1) c).is_falling = false := placed_not_falling hplace
            rw [if_neg (show ¬(r + 1 = r + 1 + 1 ∧ c ∈ List.range GAME_WIDTH ∧
                  (b (r + 1) c).is_falling = true) from fun h => by omega),
                if_neg (show ¬(r + 1 = r + 1 ∧ c ∈ List.range GAME_WIDTH ∧
                  (b (r + 1) c).is_falling = true) from by
                    intro h
                    rw [hnf] at h
                    exact Bool.false_ne_true h.2.2)]
            exact hplace
          · rw [hs1 (r + 1) c hr1 (by omega)]
            exact hplace

/-- Helper: reading the bottom-row check as a statement about cells. -/
theorem bottomRowFalling_eq_false_iff (b : Board) :
    bottomRowFalling b = false ↔
      ∀ c, c < GAME_WIDTH → (b (GAME_HEIGHT - 1) c).is_falling = false := by
  constructor
  · intro h c hc
    rcases Bool.eq_false_or_eq_true ((b (GAME_HEIGHT - 1) c).is_falling) with hf | hf
    · exfalso
      have ht : bottomRowFalling b = true := by
        unfold bottomRowFalling
        rw [List.any_eq_true]
        exact ⟨c, List.mem_range.mpr hc, hf⟩
      rw [h] at ht
      exact Bool.false_ne_true ht
    · exact hf
  · intro h
    rcases Bool.eq_false_or_eq_true (bottomRowFalling b) with hf | hf
    · exfalso
      unfold bottomRowFalling at hf
      rw [List.any_eq_true] at hf
      obtain ⟨c, hcm, hcp⟩ := hf
      rw [h c (List.mem_range.mp hcm)] at hcp
      exact Bool.false_ne_true hcp
    · exact hf

/-- Helper: reading the collision test as a statement about cells. -/
theorem collisionBelow_eq_true_iff (b : Board) :
    collisionBelow b = true ↔
      ∃ r, r < GAME_HEIGHT - 1 ∧ ∃ c, c < GAME_WIDTH ∧
        (b r c).is_falling = true ∧ (b (r + 1) c).is_placed = true := by
  unfold collisionBelow
  rw [List.any_eq_true]
  constructor
  · rintro ⟨r, hrm, hr⟩
    rw [List.any_eq_true] at hr
    obtain ⟨c, hcm, hc⟩ := hr
    rw [Bool.and_eq_true] at hc
    exact ⟨r, List.mem_range.mp hrm, c, List.mem_range.mp hcm, hc⟩
  · rintro ⟨r, hr, c, hc, h1, h2⟩
    refine ⟨r, List.mem_range.mpr hr, ?_⟩
    rw [List.any_eq_true]
    refine ⟨c, List.mem_range.mpr hc, ?_⟩
    rw [Bool.and_eq_true]
    exact ⟨h1, h2⟩

/-- C1: for an engine driving its falling piece (master, or the
`even_if_slave` override), `do_fall` locks — freezing every falling cell into
the placed cell with the same piece, on the otherwise untouched original
board — exactly when a falling cell sits in the bottom row (no cell moves) or
some falling cell has a placed cell directly below it (the pre-move snapshot
is what gets frozen); otherwise every falling cell moves down exactly one row
and it returns `false`.  In the moving case no placed cell is disturbed, so a
falling cell never overwrites a placed one. -/
theorem do_fall_characterization (b : Board) (m e : Bool) (hm : m = true ∨ e = true) :
    (∀ r c, r < GAME_HEIGHT → c < GAME_WIDTH → (b r c).is_falling = true →
        falling_freeze b r c = ⟨BlotType.PLACED, (b r c).piece, false⟩)
    ∧ (bottomRowFalling b = true → do_fall m e b = some (falling_freeze b, true))
    ∧ (bottomRowFalling b = false → collisionBelow b = true →
        do_fall m e b = some (falling_freeze b, true))
    ∧ (bottomRowFalling b = false → collisionBelow b = false →
        do_fall m e b = some (gravityMoved b, false)
        ∧ (∀ r c, (b r c).is_placed = true → gravityMoved b r c = b r c)) := by
  have hgate : (!m && !e) = false := by
    rcases hm with rfl | rfl
    · rfl
    · rcases m with - | - <;> rfl
  have hgate' : ¬((!m && !e) = true) := by
    rw [hgate]
    exact Bool.false_ne_true
  refine ⟨?_, ?_, ?_, ?_⟩
  · intro r c hr hc hf
    unfold falling_freeze
    rw [if_pos ⟨hr, hc, hf⟩]
    rfl
  · intro hbrf
    unfold do_fall
    rw [if_neg hgate', if_pos hbrf]
  · intro hbrf hcb
    unfold do_fall
    rw [if_neg hgate', if_neg (show ¬(bottomRowFalling b = true) from by
          rw [hbrf]; exact Bool.false_ne_true)]
    have hcoll : fall_loop b (rows_cells (GAME_HEIGHT - 1)) = Except.error FallErr.collision :=
      fall_rows_collision (GAME_HEIGHT - 1) b
        ((bottomRowFalling_eq_false_iff b).mp hbrf)
        ((collisionBelow_eq_true_iff b).mp hcb)
    rw [hcoll]
  · intro hbrf hcb
    have hnocoll : ∀ r c, r < GAME_HEIGHT - 1 → c < GAME_WIDTH →
        ¬((b r c).is_falling = true ∧ (b (r + 1) c).is_placed = true) := by
      intro r c hr hc hand
      have ht : collisionBelow b = true := (collisionBelow_eq_true_iff b).mpr
        ⟨r, hr, c, hc, hand⟩
      rw [hcb] at ht
      exact Bool.false_ne_true ht
    constructor
    · unfold do_fall
      rw [if_neg hgate', if_neg (show ¬(bottomRowFalling b = true) from by
            rw [hbrf]; exact Bool.false_ne_true)]
      have hok : fall_loop b (rows_cells (GAME_HEIGHT - 1))
          = Except.ok (moveUpTo b (GAME_HEIGHT - 1)) :=
        fall_rows_ok (GAME_HEIGHT - 1) b ((bottomRowFalling_eq_false_iff b).mp hbrf) hnocoll
      rw [hok]
      rfl
    · intro r c hp
      unfold gravityMoved
      rw [if_neg (show ¬(c < GAME_WIDTH ∧ 1 ≤ r ∧ r ≤ GAME_HEIGHT - 1 ∧
            (b (r - 1) c).is_falling = true) from by
          rintro ⟨hc, hr1, hr2, hf⟩
          refine hnocoll (r - 1) c (by omega) hc ⟨hf, ?_⟩
          rw [(show r - 1 + 1 = r from by omega)]
          exact hp),
        if_neg (show ¬(c < GAME_WIDTH ∧ r < GAME_HEIGHT - 1 ∧ (b r c).is_falling = true) from by
          rintro ⟨-, -, hf⟩
          rw [placed_not_falling hp] at hf
          exact Bool.false_ne_true hf)]

/-- Witness for C1: the three cases of `do_fall` at concrete boards — a
falling cell in the bottom row locks in place, a falling cell on a placed
cell locks on the restored snapshot, a free falling cell moves down one row. -/
theorem do_fall_characterization_witness :
    do_fall true false bFallBottom = some (falling_freeze bFallBottom, true)
    ∧ do_fall true false bCollide = some (falling_freeze bCollide, true)
    ∧ do_fall true false bMove = some (gravityMoved bMove, false) :=
  ⟨(do_fall_characterization bFallBottom true false (Or.inl rfl)).2.1 (by decide),
   (do_fall_characterization bCollide true false (Or.inl rfl)).2.2.1 (by decide) (by decide),
   ((do_fall_characterization bMove true false (Or.inl rfl)).2.2.2 (by decide) (by decide)).1⟩

/-- Helper: a falling blot is not empty. -/
theorem falling_not_empty {x : Blot} (h : x.is_falling = true) : x.is_empty = false := by
  rcases blot_type_cases x with ⟨h1, -, h3⟩ | ⟨h1, -, -⟩ | ⟨h1, -, -⟩ <;> simp_all

/-- Helper: one unfolding step of `rotate_place`. -/
theorem rotate_place_cons (orig : Board) (cr cc : Nat) (rotation : Int) (bd : Board)
    (row col : Nat) (blot : Blot) (rest : List (Nat × Nat × Blot)) :
    rotate_place orig cr cc rotation bd ((row, col, blot) :: rest) =
      match try_put bd (rotatedTarget cr cc rotation row col).1
          (rotatedTarget cr cc rotation row col).2 blot with
      | (bd1, true) => rotate_place orig cr cc rotation bd1 rest
      | (_, false) => orig := rfl

/-- Helper: a successful `try_put` was in bounds, hit an empty cell, and wrote
the blot there. -/
theorem try_put_true {b : Board} {row col : Int} {x : Blot} {b1 : Board}
    (h : try_put b row col x = (b1, true)) :
    (0 ≤ row ∧ row < (GAME_HEIGHT : Int) ∧ 0 ≤ col ∧ col < (GAME_WIDTH : Int))
    ∧ (b row.toNat col.toNat).is_empty = true
    ∧ b1 = setCell b row.toNat col.toNat x := by
  unfold try_put at h
  by_cases hb : 0 ≤ row ∧ row < (GAME_HEIGHT : Int) ∧ 0 ≤ col ∧ col < (GAME_WIDTH : Int)
  · rw [if_pos hb] at h
    by_cases he : (b row.toNat col.toNat).is_empty = true
    · rw [if_pos he] at h
      have h1 := congrArg Prod.fst h
      exact ⟨hb, he, h1.symm⟩
    · rw [if_neg he] at h
      have h2 := congrArg Prod.snd h
      exact absurd h2 (by simp)
  · rw [if_neg hb] at h
    have h2 := congrArg Prod.snd h
    exact absurd h2 (by simp)

/-- Helper: if some cell in the list has a blocked target (out of bounds, or
already occupied on the board `rb` that every processed board dominates), the
placement loop restores and returns the snapshot. -/
theorem rotate_place_blocked (orig rb : Board) (cr cc : Nat) (rotation : Int) :
    ∀ (l : List (Nat × Nat × Blot)) (bd : Board),
    (∀ x ∈ l, x.2.2.is_empty = false) →
    (∀ r c, (rb r c).is_empty = false → (bd r c).is_empty = false) →
    (∃ x ∈ l,
      ¬(0 ≤ (rotatedTarget cr cc rotation x.1 x.2.1).1 ∧
          (rotatedTarget cr cc rotation x.1 x.2.1).1 < (GAME_HEIGHT : Int) ∧
          0 ≤ (rotatedTarget cr cc rotation x.1 x.2.1).2 ∧
          (rotatedTarget cr cc rotation x.1 x.2.1).2 < (GAME_WIDTH : Int))
      ∨ (rb (rotatedTarget cr cc rotation x.1 x.2.1).1.toNat
            (rotatedTarget cr cc rotation x.1 x.2.1).2.toNat).is_empty = false) →
    rotate_place orig cr cc rotation bd l = orig := by
  intro l
  induction l with
  | nil =>
    rintro bd - - ⟨x, hx, -⟩
    exact absurd hx (List.not_mem_nil x)
  | cons hd rest ih =>
    rintro bd hne hmono hex
    obtain ⟨row, col, blot⟩ := hd
    rw [rotate_place_cons]
    rcases htp : try_put bd (rotatedTarget cr cc rotation row col).1
        (rotatedTarget cr cc rotation row col).2 blot with ⟨bd1, fl⟩
    cases fl with
    | false => rfl
    | true =>
      show rotate_place orig cr cc rotation bd1 rest = orig
      obtain ⟨hbounds, hempty, hbd1⟩ := try_put_true htp
      obtain ⟨x, hx, hbad⟩ := hex
      rcases List.mem_cons.mp hx with rfl | hxr
      · exfalso
        rcases hbad with hob | hocc
        · exact hob hbounds
        · rw [hmono _ _ hocc] at hempty
          exact Bool.false_ne_true hempty
      · apply ih bd1 (fun y hy => hne y (List.mem_cons_of_mem _ hy))
        · intro r c hrb
          rw [hbd1]
          by_cases hrc : r = (rotatedTarget cr cc rotation row col).1.toNat ∧
              c = (rotatedTarget cr cc rotation row col).2.toNat
          · obtain ⟨rfl, rfl⟩ := hrc
            rw [setCell_same]
            exact hne (row, col, blot) (List.mem_cons_self _ _)
          · rw [setCell_other _ _ _ _ hrc]
            exact hmono r c hrb
        · exact ⟨x, hxr, hbad⟩

/-- C2: rotation is atomic — whenever some rotated target cell of
`falling_rotate` is out of bounds or occupied (on the board with the moving
cells removed), the board after the call is identical, cell for cell, to the
board before it. -/
theorem falling_rotate_atomic (b : Board) (rotation : Int)
    (h : rotationBlocked b rotation = true) :
    falling_rotate b rotation = b := by
  unfold rotationBlocked at h
  unfold falling_rotate
  rcases hcb : falling_get_center_blot b with - | ⟨cr, cc, cb⟩
  · rfl
  · rw [hcb] at h
    show (if cb.should_rotate = false then b
          else rotate_place b cr cc rotation (remove_falling b) (allFallingNonCenter b)) = b
    have h1 : (if cb.should_rotate = false then false
        else (allFallingNonCenter b).any fun x =>
          let t := rotatedTarget cr cc rotation x.1 x.2.1
          !decide (0 ≤ t.1 ∧ t.1 < (GAME_HEIGHT : Int) ∧ 0 ≤ t.2 ∧ t.2 < (GAME_WIDTH : Int)) ||
            !(remove_falling b t.1.toNat t.2.toNat).is_empty) = true := h
    by_cases hsr : cb.should_rotate = false
    · rw [if_pos hsr]
    · rw [if_neg hsr]
      rw [if_neg hsr, List.any_eq_true] at h1
      obtain ⟨x, hx, hbadb⟩ := h1
      simp only [Bool.or_eq_true, Bool.not_eq_true', decide_eq_false_iff_not] at hbadb
      have hne : ∀ y ∈ allFallingNonCenter b, y.2.2.is_empty = false := by
        intro y hy
        have hp := (List.mem_filter.mp hy).2
        rw [Bool.and_eq_true] at hp
        exact falling_not_empty hp.1
      exact rotate_place_blocked b (remove_falling b) cr cc rotation
        (allFallingNonCenter b) (remove_falling b) hne (fun r c hh => hh) ⟨x, hx, hbadb⟩

/-- Witness for C2: a piece at the top wall whose rotation would leave the
board; the call leaves the board untouched. -/
theorem falling_rotate_atomic_witness :
    rotationBlocked bRotBlocked 1 = true ∧ falling_rotate bRotBlocked 1 = bRotBlocked :=
  ⟨by decide, falling_rotate_atomic bRotBlocked 1 (by decide)⟩

/-- Helper: membership in `all_blots` is exactly being an in-range cell with
its blot. -/
theorem mem_all_blots {b : Board} {x : Nat × Nat × Blot} :
    x ∈ all_blots b ↔ x.1 < GAME_HEIGHT ∧ x.2.1 < GAME_WIDTH ∧ x.2.2 = b x.1 x.2.1 := by
  unfold all_blots
  rw [List.mem_flatMap]
  constructor
  · rintro ⟨row, hrow, hx⟩
    rw [List.mem_map] at hx
    obtain ⟨col, hcol, rfl⟩ := hx
    exact ⟨List.mem_range.mp hrow, List.mem_range.mp hcol, rfl⟩
  · rintro ⟨h1, h2, h3⟩
    refine ⟨x.1, List.mem_range.mpr h1, ?_⟩
    rw [List.mem_map]
    refine ⟨x.2.1, List.mem_range.mpr h2, ?_⟩
    obtain ⟨r, c, blot⟩ := x
    simp only at h3
    rw [h3]

set_option maxRecDepth 10000 in
/-- Helper: distinct entries of `all_blots` sit at distinct positions. -/
theorem all_blots_pairwise (b : Board) :
    (all_blots b).Pairwise (fun x y => (x.1, x.2.1) ≠ (y.1, y.2.1)) := by
  have hmap : (all_blots b).map (fun x => (x.1, x.2.1))
      = (List.range GAME_HEIGHT).flatMap fun row =>
          (List.range GAME_WIDTH).map fun col => (row, col) := by
    unfold all_blots
    simp only [List.map_flatMap, List.map_map]
    exact congrArg _ (funext fun a =>
      congrArg (fun f => List.map f (List.range GAME_WIDTH)) (funext fun col => rfl))
  have hnd : ((all_blots b).map (fun x => (x.1, x.2.1))).Nodup := by
    rw [hmap]
    decide
  exact (List.pairwise_map.mp hnd)

/-- Helper: distinct entries of the removed-cell list sit at distinct
positions. -/
theorem allFallingNonCenter_pairwise (b : Board) :
    (allFallingNonCenter b).Pairwise (fun x y => (x.1, x.2.1) ≠ (y.1, y.2.1)) :=
  List.Pairwise.sublist (List.filter_sublist (all_blots b)) (all_blots_pairwise b)

/-- Helper: membership in the removed-cell list. -/
theorem mem_allFallingNonCenter {b : Board} {r c : Nat} :
    (r, c, b r c) ∈ allFallingNonCenter b ↔
      r < GAME_HEIGHT ∧ c < GAME_WIDTH ∧ (b r c).is_falling = true ∧
        (b r c).is_center_blot = false := by
  unfold allFallingNonCenter
  rw [List.mem_filter, mem_all_blots]
  constructor
  · rintro ⟨⟨h1, h2, -⟩, hp⟩
    rw [Bool.and_eq_true, Bool.not_eq_true'] at hp
    exact ⟨h1, h2, hp.1, hp.2⟩
  · rintro ⟨h1, h2, h3, h4⟩
    refine ⟨⟨h1, h2, rfl⟩, ?_⟩
    rw [Bool.and_eq_true, Bool.not_eq_true']
    exact ⟨h3, h4⟩

/-- Helper: what a found center blot is — the in-range falling center cell it
points at. -/
theorem falling_get_center_blot_spec {b : Board} {cr cc : Nat} {cb : Blot}
    (h : falling_get_center_blot b = some (cr, cc, cb)) :
    cr < GAME_HEIGHT ∧ cc < GAME_WIDTH ∧ cb = b cr cc ∧ cb.is_falling = true ∧
      cb.is_center_blot = true := by
  unfold falling_get_center_blot at h
  by_cases hft : has_falling_tetrimono b = false
  · rw [if_pos hft] at h
    exact absurd h (by simp)
  · rw [if_neg hft] at h
    rcases hl : (all_blots b).filter (fun x => x.2.2.is_falling && x.2.2.is_center_blot)
        with - | ⟨x, xs⟩
    · rw [hl] at h
      exact absurd h (by simp)
    · rw [hl] at h
      have hx : x ∈ (all_blots b).filter
          (fun x => x.2.2.is_falling && x.2.2.is_center_blot) := by
        rw [hl]
        exact List.mem_cons_self x xs
      have hxm := List.mem_filter.mp hx
      have hxa := mem_all_blots.mp hxm.1
      have hxp := hxm.2
      rw [Bool.and_eq_true] at hxp
      have hxe : x = (cr, cc, cb) := by
        have := h
        simp only [Option.some.injEq] at this
        exact this
      subst hxe
      exact ⟨hxa.1, hxa.2.1, hxa.2.2, hxp.1, hxp.2⟩

/-- Helper: with `rotation ≠ 0` the rotated targets of distinct cells are
distinct. -/
theorem rotatedTarget_inj {cr cc : Nat} {rotation : Int} (hrot : rotation ≠ 0)
    {r1 c1 r2 c2 : Nat}
    (h : rotatedTarget cr cc rotation r1 c1 = rotatedTarget cr cc rotation r2 c2) :
    r1 = r2 ∧ c1 = c2 := by
  unfold rotatedTarget at h
  have h1 := congrArg Prod.fst h
  have h2 := congrArg Prod.snd h
  simp only at h1 h2
  have hc : ((c1 : Int) - cc) = ((c2 : Int) - cc) :=
    mul_left_cancel₀ hrot (by omega)
  have hr : ((r1 : Int) - cr) = ((r2 : Int) - cr) :=
    mul_left_cancel₀ hrot (by omega)
  omega

/-- Helper: unpacking `rotationBlocked … = false` — every rotated target is
in bounds and empty on the removed board. -/
theorem rotationBlocked_false_unpack {b : Board} {rotation : Int} {cr cc : Nat} {cb : Blot}
    (hcb : falling_get_center_blot b = some (cr, cc, cb))
    (hsr : cb.should_rotate = true)
    (h : rotationBlocked b rotation = false) :
    ∀ x ∈ allFallingNonCenter b,
      (0 ≤ (rotatedTarget cr cc rotation x.1 x.2.1).1 ∧
        (rotatedTarget cr cc rotation x.1 x.2.1).1 < (GAME_HEIGHT : Int) ∧
        0 ≤ (rotatedTarget cr cc rotation x.1 x.2.1).2 ∧
        (rotatedTarget cr cc rotation x.1 x.2.1).2 < (GAME_WIDTH : Int))
      ∧ (remove_falling b (rotatedTarget cr cc rotation x.1 x.2.1).1.toNat
          (rotatedTarget cr cc rotation x.1 x.2.1).2.toNat).is_empty = true := by
  intro x hx
  unfold rotationBlocked at h
  rw [hcb] at h
  have h1 : (if cb.should_rotate = false then false
      else (allFallingNonCenter b).any fun x =>
        let t := rotatedTarget cr cc rotation x.1 x.2.1
        !decide (0 ≤ t.1 ∧ t.1 < (GAME_HEIGHT : Int) ∧ 0 ≤ t.2 ∧ t.2 < (GAME_WIDTH : Int)) ||
          !(remove_falling b t.1.toNat t.2.toNat).is_empty) = false := h
  have hsr1 : ¬cb.should_rotate = false := by
    rw [hsr]
    decide
  rw [if_neg hsr1] at h1
  have h2 : ∀ y ∈ allFallingNonCenter b,
      ((fun x =>
        let t := rotatedTarget cr cc rotation x.1 x.2.1
        !decide (0 ≤ t.1 ∧ t.1 < (GAME_HEIGHT : Int) ∧ 0 ≤ t.2 ∧ t.2 < (GAME_WIDTH : Int)) ||
          !(remove_falling b t.1.toNat t.2.toNat).is_empty) y) = false := by
    intro y hy
    rcases Bool.eq_false_or_eq_true ((fun x =>
        let t := rotatedTarget cr cc rotation x.1 x.2.1
        !decide (0 ≤ t.1 ∧ t.1 < (GAME_HEIGHT : Int) ∧ 0 ≤ t.2 ∧ t.2 < (GAME_WIDTH : Int)) ||
          !(remove_falling b t.1.toNat t.2.toNat).is_empty) y) with hv | hv
    · exfalso
      have : ((allFallingNonCenter b).any fun x =>
          let t := rotatedTarget cr cc rotation x.1 x.2.1
          !decide (0 ≤ t.1 ∧ t.1 < (GAME_HEIGHT : Int) ∧ 0 ≤ t.2 ∧ t.2 < (GAME_WIDTH : Int)) ||
            !(remove_falling b t.1.toNat t.2.toNat).is_empty) = true := by
        rw [List.any_eq_true]
        exact ⟨y, hy, hv⟩
      rw [h1] at this
      exact Bool.false_ne_true this
    · exact hv
  have h3 := h2 x hx
  simp only [Bool.or_eq_false_iff, Bool.not_eq_false', Bool.not_eq_false] at h3
  obtain ⟨hb, he⟩ := h3
  exact ⟨of_decide_eq_true hb, he⟩

/-- Helper: when every rotated target is in bounds, empty, and the targets
are pairwise distinct, the placement loop writes every blot at its rotated
target and touches nothing else. -/
theorem rotate_place_success (orig : Board) (cr cc : Nat) (rotation : Int) :
    ∀ (l : List (Nat × Nat × Blot)) (bd : Board),
    (∀ x ∈ l, 0 ≤ (rotatedTarget cr cc rotation x.1 x.2.1).1 ∧
        (rotatedTarget cr cc rotation x.1 x.2.1).1 < (GAME_HEIGHT : Int) ∧
        0 ≤ (rotatedTarget cr cc rotation x.1 x.2.1).2 ∧
        (rotatedTarget cr cc rotation x.1 x.2.1).2 < (GAME_WIDTH : Int)) →
    (∀ x ∈ l, (bd (rotatedTarget cr cc rotation x.1 x.2.1).1.toNat
        (rotatedTarget cr cc rotation x.1 x.2.1).2.toNat).is_empty = true) →
    l.Pairwise (fun x y => rotatedTarget cr cc rotation x.1 x.2.1
        ≠ rotatedTarget cr cc rotation y.1 y.2.1) →
    (∀ x ∈ l, rotate_place orig cr cc rotation bd l
        (rotatedTarget cr cc rotation x.1 x.2.1).1.toNat
        (rotatedTarget cr cc rotation x.1 x.2.1).2.toNat = x.2.2)
    ∧ (∀ r c, (∀ x ∈ l, ¬(r = (rotatedTarget cr cc rotation x.1 x.2.1).1.toNat ∧
          c = (rotatedTarget cr cc rotation x.1 x.2.1).2.toNat)) →
        rotate_place orig cr cc rotation bd l r c = bd r c) := by
  intro l
  induction l with
  | nil =>
    intro bd _ _ _
    constructor
    · rintro x hx
      exact absurd hx (List.not_mem_nil x)
    · intro r c _
      rfl
  | cons hd rest ih =>
    rintro bd hbounds hemp hdist
    obtain ⟨row, col, blot⟩ := hd
    have hbh := hbounds (row, col, blot) (List.mem_cons_self _ _)
    have heh := hemp (row, col, blot) (List.mem_cons_self _ _)
    simp only at hbh heh
    have htp : try_put bd (rotatedTarget cr cc rotation row col).1
        (rotatedTarget cr cc rotation row col).2 blot
        = (setCell bd (rotatedTarget cr cc rotation row col).1.toNat
            (rotatedTarget cr cc rotation row col).2.toNat blot, true) := by
      unfold try_put
      rw [if_pos hbh, if_pos heh]
    rw [List.pairwise_cons] at hdist
    obtain ⟨hhd, htl⟩ := hdist
    have hnatne : ∀ y ∈ rest,
        ¬((rotatedTarget cr cc rotation y.1 y.2.1).1.toNat
            = (rotatedTarget cr cc rotation row col).1.toNat
          ∧ (rotatedTarget cr cc rotation y.1 y.2.1).2.toNat
            = (rotatedTarget cr cc rotation row col).2.toNat) := by
      rintro y hy ⟨h1, h2⟩
      have hby := hbounds y (List.mem_cons_of_mem _ hy)
      apply hhd y hy
      have e1 : (rotatedTarget cr cc rotation row col).1
          = (rotatedTarget cr cc rotation y.1 y.2.1).1 := by omega
      have e2 : (rotatedTarget cr cc rotation row col).2
          = (rotatedTarget cr cc rotation y.1 y.2.1).2 := by omega
      exact Prod.ext e1 e2
    have hemp1 : ∀ y ∈ rest,
        ((setCell bd (rotatedTarget cr cc rotation row col).1.toNat
            (rotatedTarget cr cc rotation row col).2.toNat blot)
          (rotatedTarget cr cc rotation y.1 y.2.1).1.toNat
          (rotatedTarget cr cc rotation y.1 y.2.1).2.toNat).is_empty = true := by
      intro y hy
      rw [setCell_other _ _ _ _ (hnatne y hy)]
      exact hemp y (List.mem_cons_of_mem _ hy)
    have hih := ih (setCell bd (rotatedTarget cr cc rotation row col).1.toNat
        (rotatedTarget cr cc rotation row col).2.toNat blot)
      (fun y hy => hbounds y (List.mem_cons_of_mem _ hy)) hemp1 htl
    constructor
    · intro x hx
      rcases List.mem_cons.mp hx with rfl | hxr
      · rw [rotate_place_cons, htp]
        show rotate_place orig cr cc rotation
            (setCell bd (rotatedTarget cr cc rotation row col).1.toNat
              (rotatedTarget cr cc rotation row col).2.toNat blot) rest
            (rotatedTarget cr cc rotation row col).1.toNat
            (rotatedTarget cr cc rotation row col).2.toNat = blot
        rw [hih.2 (rotatedTarget cr cc rotation row col).1.toNat
            (rotatedTarget cr cc rotation row col).2.toNat
            (fun y hy hand => hnatne y hy ⟨hand.1.symm, hand.2.symm⟩)]
        exact setCell_same _ _ _ _
      · rw [rotate_place_cons, htp]
        show rotate_place orig cr cc rotation
            (setCell bd (rotatedTarget cr cc rotation row col).1.toNat
              (rotatedTarget cr cc rotation row col).2.toNat blot) rest
            (rotatedTarget cr cc rotation x.1 x.2.1).1.toNat
            (rotatedTarget cr cc rotation x.1 x.2.1).2.toNat = x.2.2
        exact hih.1 x hxr
    · intro r c havoid
      rw [rotate_place_cons, htp]
      show rotate_place orig cr cc rotation
          (setCell bd (rotatedTarget cr cc rotation row col).1.toNat
            (rotatedTarget cr cc rotation row col).2.toNat blot) rest r c
          = bd r c
      rw [hih.2 r c (fun y hy => havoid y (List.mem_cons_of_mem _ hy))]
      exact setCell_other _ _ _ _ (havoid (row, col, blot) (List.mem_cons_self _ _))

/-- C8: with no center blot, or with the piece's `no_rotation` flag set,
`falling_rotate` is a no-op; and a successful (unblocked) rotation keeps the
center cell in place and moves every falling non-center cell `(r, c)` to
`(center_row + rotation * (c - center_col),
  center_col - rotation * (r - center_row))`, i.e. to the offset
`(rotation * col_offset, -rotation * row_offset)` from the center. -/
theorem falling_rotate_spec (b : Board) (rotation : Int) :
    (falling_get_center_blot b = none → falling_rotate b rotation = b)
    ∧ (∀ cr cc cb, falling_get_center_blot b = some (cr, cc, cb) →
        cb.should_rotate = false → falling_rotate b rotation = b)
    ∧ (∀ cr cc cb, falling_get_center_blot b = some (cr, cc, cb) →
        cb.should_rotate = true → rotationBlocked b rotation = false →
        (∀ r c, r < GAME_HEIGHT → c < GAME_WIDTH →
            (b r c).is_falling = true → (b r c).is_center_blot = false →
            falling_rotate b rotation (rotatedTarget cr cc rotation r c).1.toNat
              (rotatedTarget cr cc rotation r c).2.toNat = b r c)
        ∧ falling_rotate b rotation cr cc = b cr cc) := by
  refine ⟨?_, ?_, ?_⟩
  · intro h
    unfold falling_rotate
    rw [h]
  · intro cr cc cb hcb hsr
    unfold falling_rotate
    rw [hcb]
    show (if cb.should_rotate = false then b
        else rotate_place b cr cc rotation (remove_falling b) (allFallingNonCenter b)) = b
    rw [if_pos hsr]
  · intro cr cc cb hcb hsr hnb
    have hunp := rotationBlocked_false_unpack hcb hsr hnb
    obtain ⟨hcrh, hccw, hcbe, hcbf, hcbc⟩ := falling_get_center_blot_spec hcb
    have hfr : falling_rotate b rotation
        = rotate_place b cr cc rotation (remove_falling b) (allFallingNonCenter b) := by
      unfold falling_rotate
      rw [hcb]
      show (if cb.should_rotate = false then b
          else rotate_place b cr cc rotation (remove_falling b) (allFallingNonCenter b))
        = rotate_place b cr cc rotation (remove_falling b) (allFallingNonCenter b)
      rw [if_neg (by rw [hsr]; decide)]
    have hrfc : remove_falling b cr cc = b cr cc := by
      unfold remove_falling
      rw [if_neg (by
        rintro ⟨-, -, -, hcon⟩
        rw [← hcbe, hcbc] at hcon
        exact absurd hcon (by decide))]
    have hfce : (b cr cc).is_empty = false := by
      rw [← hcbe]
      exact falling_not_empty hcbf
    rcases hl : allFallingNonCenter b with - | ⟨x0, xs⟩
    · constructor
      · intro r c hr hc hf hnc
        exfalso
        have hmem : (r, c, b r c) ∈ allFallingNonCenter b :=
          mem_allFallingNonCenter.mpr ⟨hr, hc, hf, hnc⟩
        rw [hl] at hmem
        exact absurd hmem (List.not_mem_nil _)
      · rw [hfr, hl]
        exact hrfc
    · have hrot : rotation ≠ 0 := by
        intro h0
        have hx0 := hunp x0 (by rw [hl]; exact List.mem_cons_self _ _)
        have ht : rotatedTarget cr cc rotation x0.1 x0.2.1 = ((cr : Int), (cc : Int)) := by
          unfold rotatedTarget
          rw [h0]
          simp
        rw [ht] at hx0
        have hx02 := hx0.2
        rw [show ((cr : Int).toNat) = cr from by omega,
            show ((cc : Int).toNat) = cc from by omega, hrfc, hfce] at hx02
        exact Bool.false_ne_true hx02
      have hpw : (allFallingNonCenter b).Pairwise (fun x y =>
          rotatedTarget cr cc rotation x.1 x.2.1 ≠ rotatedTarget cr cc rotation y.1 y.2.1) := by
        apply List.Pairwise.imp ?_ (allFallingNonCenter_pairwise b)
        intro x y hne hteq
        have hinj := rotatedTarget_inj hrot hteq
        exact hne (Prod.ext hinj.1 hinj.2)
      have hsucc := rotate_place_success b cr cc rotation (allFallingNonCenter b)
        (remove_falling b) (fun x hx => (hunp x hx).1) (fun x hx => (hunp x hx).2) hpw
      constructor
      · intro r c hr hc hf hnc
        rw [hfr]
        exact hsucc.1 (r, c, b r c) (mem_allFallingNonCenter.mpr ⟨hr, hc, hf, hnc⟩)
      · rw [hfr]
        rw [hsucc.2 cr cc (by
          intro x hx hand
          have hx2 := (hunp x hx).2
          rw [← hand.1, ← hand.2, hrfc, hfce] at hx2
          exact Bool.false_ne_true hx2)]
        exact hrfc

/-- Witness for C8: a board with no center blot is untouched; on a free
horizontal piece centered at (5,5), rotating clockwise keeps the center and
sends the cell at (5,6) to (6,5). -/
theorem falling_rotate_spec_witness :
    falling_get_center_blot bMove = none ∧ falling_rotate bMove 1 = bMove
    ∧ rotationBlocked bRotFree 1 = false
    ∧ falling_rotate bRotFree 1 (rotatedTarget 5 5 1 5 6).1.toNat
        (rotatedTarget 5 5 1 5 6).2.toNat = bRotFree 5 6
    ∧ falling_rotate bRotFree 1 5 5 = bRotFree 5 5 := by
  refine ⟨by decide, (falling_rotate_spec bMove 1).1 (by decide), by decide, ?_, ?_⟩
  · exact ((falling_rotate_spec bRotFree 1).2.2 5 5 fallingCenterBlot0 (by decide) (by decide)
      (by decide)).1 5 6 (by decide) (by decide) (by decide) (by decide)
  · exact ((falling_rotate_spec bRotFree 1).2.2 5 5 fallingCenterBlot0 (by decide) (by decide)
      (by decide)).2

/-- Helper: `PIECES[i]` at a nonnegative index is the plain list lookup. -/
theorem piecesAt_natCast (n : Nat) : piecesAt (n : Int) = PIECES.get? n := by
  unfold piecesAt
  rw [if_pos (by omega)]
  congr 1

/-- Helper: decoding inverts encoding on every well-formed blot. -/
theorem decode_serializeBlot {x : Blot} (h : BlotWf x = true) :
    ∃ y, serializeBlot x = some y ∧ decodeBlot y = some x := by
  obtain ⟨ty, pc, ctr⟩ := x
  have h7 : PIECES.length = 7 := rfl
  cases ty with
  | EMPTY =>
    cases pc with
    | none =>
      cases ctr with
      | false =>
        exact ⟨1, rfl, rfl⟩
      | true =>
        exact absurd h (by decide)
    | some p =>
      exact absurd (show false = true from h) (by decide)
  | PLACED =>
    cases pc with
    | none =>
      exact absurd (show false = true from h) (by decide)
    | some p =>
      cases ctr with
      | false =>
        have h1 : (decide (PIECES.get? p.id = some p) && !false) = true := h
        simp only [Bool.not_false, Bool.and_true, decide_eq_true_eq] at h1
        obtain ⟨hlt, -⟩ := List.get?_eq_some.mp h1
        refine ⟨p.id + 2, rfl, ?_⟩
        unfold decodeBlot
        rw [if_neg (by omega), if_neg (by omega), if_neg (by omega),
            show ((p.id + 2 : Nat) : Int) - 2 = ((p.id : Nat) : Int) from by omega,
            piecesAt_natCast, h1]
        rfl
      | true =>
        have h1 : (decide (PIECES.get? p.id = some p) && !true) = true := h
        simp at h1
  | FALLING =>
    cases pc with
    | none =>
      exact absurd (show false = true from h) (by decide)
    | some p =>
      have h1 : decide (PIECES.get? p.id = some p) = true := h
      rw [decide_eq_true_eq] at h1
      obtain ⟨hlt, -⟩ := List.get?_eq_some.mp h1
      cases ctr with
      | false =>
        refine ⟨p.id + 30, rfl, ?_⟩
        unfold decodeBlot
        rw [if_neg (by omega), if_neg (by omega), if_pos (by omega),
            show ((p.id + 30 : Nat) : Int) - 30 = ((p.id : Nat) : Int) from by omega,
            piecesAt_natCast, h1]
        rfl
      | true =>
        refine ⟨p.id + 60, rfl, ?_⟩
        unfold decodeBlot
        rw [if_neg (by omega), if_pos (by omega),
            show ((p.id + 60 : Nat) : Int) - 60 = ((p.id : Nat) : Int) from by omega,
            piecesAt_natCast, h1]
        rfl

/-- Helper: `mapM` over a mapped list (in the `Option` monad). -/
theorem option_mapM_map {α β γ : Type} (g : α → β) (f : β → Option γ) :
    ∀ l : List α, (l.map g).mapM f = l.mapM fun a => f (g a) := by
  intro l
  induction l with
  | nil => rfl
  | cons a l ih => rw [List.map_cons, List.mapM_cons, List.mapM_cons, ih]

/-- Helper: encoding the cells at indices `i0, …, i0 + k - 1` succeeds on a
well-formed board, and decoding those bytes writes exactly those cells back
with their original blots. -/
theorem serialize_cells_roundtrip : ∀ (k i0 : Nat) (b bacc : Board),
    i0 + k ≤ GAME_HEIGHT * GAME_WIDTH →
    (∀ i, i0 ≤ i → i < i0 + k → BlotWf (b (i / GAME_WIDTH) (i % GAME_WIDTH)) = true) →
    ∃ bytes bfin,
      ((List.range' i0 k).mapM fun i => serializeBlot (b (i / GAME_WIDTH) (i % GAME_WIDTH)))
          = some bytes
      ∧ unserialize_cells bytes i0 bacc = some bfin
      ∧ (∀ i, i0 ≤ i → i < i0 + k →
          bfin (i / GAME_WIDTH) (i % GAME_WIDTH) = b (i / GAME_WIDTH) (i % GAME_WIDTH))
      ∧ (∀ r c, (∀ i, i0 ≤ i → i < i0 + k → ¬(r = i / GAME_WIDTH ∧ c = i % GAME_WIDTH)) →
          bfin r c = bacc r c) := by
  intro k
  induction k with
  | zero =>
    intro i0 b bacc hle hwf
    refine ⟨[], bacc, rfl, rfl, ?_, ?_⟩
    · intro i h1 h2
      omega
    · intro r c _
      rfl
  | succ k ih =>
    intro i0 b bacc hle hwf
    have hwf0 := hwf i0 (le_refl i0) (by omega)
    obtain ⟨y, hsy, hdy⟩ := decode_serializeBlot hwf0
    obtain ⟨bytes, bfin, hmap, hunser, hin, hout⟩ :=
      ih (i0 + 1) b (setCell bacc (i0 / GAME_WIDTH) (i0 % GAME_WIDTH)
          (b (i0 / GAME_WIDTH) (i0 % GAME_WIDTH))) (by omega)
        (fun i h1 h2 => hwf i (by omega) (by omega))
    refine ⟨y :: bytes, bfin, ?_, ?_, ?_, ?_⟩
    · simp only [List.range'_succ, List.mapM_cons]
      rw [hsy, hmap]
      rfl
    · simp only [unserialize_cells]
      rw [if_neg (show ¬GAME_HEIGHT ≤ i0 / GAME_WIDTH from by
            simp only [GAME_HEIGHT, GAME_WIDTH] at hle ⊢
            omega),
          hdy]
      exact hunser
    · intro i h1 h2
      by_cases hi : i = i0
      · subst hi
        rw [hout (i / GAME_WIDTH) (i % GAME_WIDTH) ?_]
        · exact setCell_same _ _ _ _
        · intro j hj1 hj2
          rintro ⟨hjc1, hjc2⟩
          simp only [GAME_WIDTH] at hjc1 hjc2
          omega
      · exact hin i (by omega) (by omega)
    · intro r c havoid
      rw [hout r c (fun j hj1 hj2 => havoid j (by omega) (by omega))]
      exact setCell_other _ _ _ _ (havoid i0 (le_refl _) (by omega))

set_option maxRecDepth 10000 in
/-- Helper: the cell bytes of `serialize` are the per-index encodings in
row-major index order. -/
theorem all_blots_blot_cells (b : Board) :
    (all_blots b).mapM (fun x => serializeBlot x.2.2)
      = (List.range' 0 (GAME_HEIGHT * GAME_WIDTH)).mapM
          fun i => serializeBlot (b (i / GAME_WIDTH) (i % GAME_WIDTH)) := by
  have h1 : all_blots b
      = ((List.range GAME_HEIGHT).flatMap fun r =>
          (List.range GAME_WIDTH).map fun c => (r, c)).map
            (fun p => (p.1, p.2, b p.1 p.2)) := by
    unfold all_blots
    rw [List.map_flatMap]
    exact congrArg _ (funext fun r => by
      rw [List.map_map]
      exact congrArg (fun f => List.map f (List.range GAME_WIDTH)) (funext fun c => rfl))
  have hpos : ((List.range GAME_HEIGHT).flatMap fun r =>
        (List.range GAME_WIDTH).map fun c => (r, c))
      = (List.range' 0 (GAME_HEIGHT * GAME_WIDTH)).map
          fun i => (i / GAME_WIDTH, i % GAME_WIDTH) := by
    decide
  rw [h1, hpos, option_mapM_map, option_mapM_map]

/-- C3 (amended): on a well-formed board (every cell empty or carrying the
catalog piece its id names — true of every reachable state), `serialize`
produces the ownership byte (2 iff the engine is not master, else 1) followed
by one byte per cell in row-major order (`serializeBlot`: 1 empty,
id + 2 placed, id + 30 falling, id + 60 falling center), and feeding that
record back through `unserialize` reproduces `points`, `lines`, `level` (they
are neither encoded nor touched) and every cell's empty/placed/falling status
and piece identity. -/
theorem serialize_roundtrip_spec (g : Game) (hwf : BoardWf g.board = true) :
    ∃ cells, g.serialize = some ((if !g.master then 2 else 1) :: cells)
      ∧ ((List.range' 0 (GAME_HEIGHT * GAME_WIDTH)).mapM
          fun i => serializeBlot (g.board (i / GAME_WIDTH) (i % GAME_WIDTH))) = some cells
      ∧ ∃ g1, g.unserialize ((if !g.master then 2 else 1) :: cells) = some g1
        ∧ g1.points = g.points ∧ g1.lines = g.lines ∧ g1.level = g.level
        ∧ ∀ r c, r < GAME_HEIGHT → c < GAME_WIDTH → g1.board r c = g.board r c := by
  have hwf1 : ∀ i, 0 ≤ i → i < 0 + GAME_HEIGHT * GAME_WIDTH →
      BlotWf (g.board (i / GAME_WIDTH) (i % GAME_WIDTH)) = true := by
    intro i h1 h2
    have hall := List.all_eq_true.mp hwf
    have hr : i / GAME_WIDTH < GAME_HEIGHT := by
      simp only [GAME_HEIGHT, GAME_WIDTH] at h2 ⊢
      omega
    have hc : i % GAME_WIDTH < GAME_WIDTH := by
      simp only [GAME_WIDTH]
      omega
    exact List.all_eq_true.mp (hall _ (List.mem_range.mpr hr)) _ (List.mem_range.mpr hc)
  obtain ⟨bytes, bfin, hmap, hunser, hin, hout⟩ :=
    serialize_cells_roundtrip (GAME_HEIGHT * GAME_WIDTH) 0 g.board g.board
      (by omega) hwf1
  refine ⟨bytes, ?_, hmap, ?_⟩
  · unfold Game.serialize
    rw [all_blots_blot_cells, hmap]
    rfl
  · refine ⟨{ g with
        master := if (if !g.master then 2 else 1) = 2 then true else g.master
        board := bfin }, ?_, rfl, rfl, rfl, ?_⟩
    · unfold Game.unserialize
      show Option.map (fun b1 => { g with
            master := if (if !g.master then 2 else 1) = 2 then true else g.master
            board := b1 }) (unserialize_cells bytes 0 g.board)
          = some { g with
            master := if (if !g.master then 2 else 1) = 2 then true else g.master
            board := bfin }
      rw [hunser]
      rfl
    · intro r c hr hc
      have hi := hin (r * GAME_WIDTH + c)
        (by omega)
        (by simp only [GAME_HEIGHT, GAME_WIDTH] at hr hc ⊢; omega)
      have he1 : (r * GAME_WIDTH + c) / GAME_WIDTH = r := by
        simp only [GAME_WIDTH] at hc ⊢
        omega
      have he2 : (r * GAME_WIDTH + c) % GAME_WIDTH = c := by
        simp only [GAME_WIDTH] at hc ⊢
        omega
      rw [he1, he2] at hi
      exact hi

set_option maxRecDepth 40000 in
/-- Counterexample for C3 as stated: on a concrete reachable state,
`serialize` does not produce the record layout the claim describes (points on
8 big-endian bytes, lines on 4, level on 4, then 4-bit cell ids packed two
per byte) — the actual record is 1 ownership byte plus one byte per cell. -/
theorem serialize_layout_counterexample :
    Game.serialize gMixed ≠ some (specPersistenceRecord gMixed) := by
  decide

/-- Witness for C3 (amended): the round trip at a concrete mixed board. -/
theorem serialize_roundtrip_spec_witness :
    BoardWf gMixed.board = true
    ∧ (∃ cells, gMixed.serialize = some ((if !gMixed.master then 2 else 1) :: cells)
      ∧ ((List.range' 0 (GAME_HEIGHT * GAME_WIDTH)).mapM
          fun i => serializeBlot (gMixed.board (i / GAME_WIDTH) (i % GAME_WIDTH))) = some cells
      ∧ ∃ g1, gMixed.unserialize ((if !gMixed.master then 2 else 1) :: cells) = some g1
        ∧ g1.points = gMixed.points ∧ g1.lines = gMixed.lines ∧ g1.level = gMixed.level
        ∧ ∀ r c, r < GAME_HEIGHT → c < GAME_WIDTH → g1.board r c = gMixed.board r c) :=
  ⟨by decide, serialize_roundtrip_spec gMixed (by decide)⟩

/-- Helper: row 0 after a delete-and-reinsert is the empty row. -/
theorem row_list_delete_zero (b : Board) (i : Nat) :
    row_list (delete_row_insert_empty b i) 0 = emptyRowList := by
  show (List.range GAME_WIDTH).map (fun c => emptyBlot) = emptyRowList
  decide

/-- Helper: rows `1..i` after deleting row `i` and inserting the empty top
row show the original rows `0..i-1`. -/
theorem row_list_delete_low (b : Board) (i r : Nat) (h1 : 1 ≤ r) (h2 : r ≤ i) :
    row_list (delete_row_insert_empty b i) r = row_list b (r - 1) := by
  unfold row_list delete_row_insert_empty
  exact congrArg (fun f => List.map f (List.range GAME_WIDTH)) (funext fun c => by
    rw [if_neg (by omega), if_pos h2])

/-- Helper: rows beyond the deleted row are unchanged. -/
theorem row_list_delete_high (b : Board) (i r : Nat) (h : i < r) :
    row_list (delete_row_insert_empty b i) r = row_list b r := by
  unfold row_list delete_row_insert_empty
  exact congrArg (fun f => List.map f (List.range GAME_WIDTH)) (funext fun c => by
    rw [if_neg (by omega), if_neg (by omega)])

/-- Helper: deleting row `r0` (all others to remove being below-indexed,
i.e. numerically larger) prepends one empty row and drops original row `r0`
from the listed rows. -/
theorem elide_shift (b : Board) (r0 : Nat) (rest : List Nat)
    (hrest : ∀ r ∈ rest, r0 < r) :
    ∀ n, r0 + 1 ≤ n →
    ((List.range n).filter fun r => decide (r ∉ rest)).map
        (row_list (delete_row_insert_empty b r0))
      = emptyRowList ::
        ((List.range n).filter fun r => decide (r ∉ r0 :: rest)).map (row_list b) := by
  intro n hn
  induction n, hn using Nat.le_induction with
  | base =>
    have hf1 : (List.range (r0 + 1)).filter (fun r => decide (r ∉ rest))
        = List.range (r0 + 1) := by
      rw [List.filter_eq_self]
      intro r hr
      rw [decide_eq_true_eq]
      intro hmem
      exact absurd (hrest r hmem) (by have := List.mem_range.mp hr; omega)
    have hf2 : (List.range (r0 + 1)).filter (fun r => decide (r ∉ r0 :: rest))
        = List.range r0 := by
      rw [List.range_succ, List.filter_append]
      have hA : (List.range r0).filter (fun r => decide (r ∉ r0 :: rest)) = List.range r0 := by
        rw [List.filter_eq_self]
        intro r hr
        rw [decide_eq_true_eq, List.mem_cons]
        rintro (rfl | hmem)
        · exact absurd (List.mem_range.mp hr) (lt_irrefl r)
        · exact absurd (hrest r hmem) (by have := List.mem_range.mp hr; omega)
      have hB : ([r0].filter fun r => decide (r ∉ r0 :: rest)) = [] := by
        have : decide (r0 ∉ r0 :: rest) = false := by
          rw [decide_eq_false_iff_not, not_not]
          exact List.mem_cons_self r0 rest
        simp [List.filter, this]
      rw [hA, hB, List.append_nil]
    rw [hf1, hf2, List.range_succ_eq_map, List.map_cons, row_list_delete_zero,
        List.map_map]
    refine congrArg _ ?_
    apply List.map_congr_left
    intro r hr
    show row_list (delete_row_insert_empty b r0) (r + 1) = row_list b r
    rw [row_list_delete_low b r0 (r + 1) (by omega)
        (by have := List.mem_range.mp hr; omega)]
    rfl
  | succ n hn ih =>
    rw [List.range_succ, List.filter_append, List.filter_append, List.map_append,
        List.map_append, ih]
    have hmemiff : (n ∉ rest) ↔ (n ∉ r0 :: rest) := by
      rw [List.mem_cons]
      constructor
      · intro h hc
        rcases hc with rfl | hc
        · omega
        · exact h hc
      · intro h hc
        exact h (Or.inr hc)
    by_cases hmem : n ∉ rest
    · have e1 : ([n].filter fun r => decide (r ∉ rest)) = [n] := by
        simp [List.filter, hmem]
      have e2 : ([n].filter fun r => decide (r ∉ r0 :: rest)) = [n] := by
        simp [List.filter, hmemiff.mp hmem]
      rw [e1, e2, List.map_singleton, List.map_singleton,
          row_list_delete_high b r0 n (by omega), List.cons_append]
    · have e1 : ([n].filter fun r => decide (r ∉ rest)) = [] := by
        rw [not_not] at hmem
        simp [List.filter, hmem]
      have e2 : ([n].filter fun r => decide (r ∉ r0 :: rest)) = [] := by
        rw [not_not] at hmem
        simp [List.filter, hmem]
      rw [e1, e2, List.map_nil, List.map_nil, List.append_nil, List.append_nil]

/-- Helper: the row-removal block of `animate_elision`, applied to an
ascending in-range row list, deletes exactly those rows and stacks one empty
row on top per deletion, preserving the order of the remaining rows. -/
theorem animate_elision_removal_spec : ∀ (rows : List Nat) (b : Board),
    rows.Pairwise (· < ·) → (∀ r ∈ rows, r < GAME_HEIGHT) →
    board_rows (animate_elision_removal b rows)
      = List.replicate rows.length emptyRowList
        ++ ((List.range GAME_HEIGHT).filter fun r => decide (r ∉ rows)).map (row_list b) := by
  intro rows
  induction rows with
  | nil =>
    intro b _ _
    show board_rows b = [] ++ ((List.range GAME_HEIGHT).filter
      fun r => decide (r ∉ ([] : List Nat))).map (row_list b)
    rw [List.nil_append, List.filter_eq_self.mpr (fun r _ => by
      rw [decide_eq_true_eq]
      exact List.not_mem_nil r)]
    rfl
  | cons r0 rest ih =>
    intro b hpw hlt
    rw [List.pairwise_cons] at hpw
    have hstep : animate_elision_removal b (r0 :: rest)
        = animate_elision_removal (delete_row_insert_empty b r0) rest := rfl
    rw [hstep, ih (delete_row_insert_empty b r0) hpw.2
        (fun r hr => hlt r (List.mem_cons_of_mem _ hr)),
      elide_shift b r0 rest hpw.1 GAME_HEIGHT
        (by have := hlt r0 (List.mem_cons_self _ _); omega)]
    rw [List.length_cons, List.replicate_succ', List.append_assoc, List.singleton_append]

/-- Helper: driving the animation with one more tick than `GAME_WIDTH` runs
all the yield steps and then the removal step. -/
theorem run_animation_completes : ∀ (j : Nat) (gg : Game),
    gg.running_elision_animation = true →
    gg.elision_yielded = GAME_WIDTH - j → j ≤ GAME_WIDTH →
    run_animation (j + 1) gg
      = { gg with
          board := animate_elision_removal gg.board gg.elision_rows
          running_elision_animation := false
          elision_yielded := GAME_WIDTH } := by
  intro j
  induction j with
  | zero =>
    intro gg hrun hy _
    have hy1 : gg.elision_yielded = GAME_WIDTH := by omega
    show (if gg.running_elision_animation then run_animation 0 (animation_next gg) else gg) = _
    rw [hrun]
    show animation_next gg = _
    unfold animation_next
    rw [if_neg (by rw [hy1]; omega), ← hy1]
  | succ j ih =>
    intro gg hrun hy hj
    show (if gg.running_elision_animation
        then run_animation (j + 1) (animation_next gg) else gg) = _
    rw [hrun]
    show run_animation (j + 1) (animation_next gg) = _
    have hnext : animation_next gg = { gg with elision_yielded := gg.elision_yielded + 1 } := by
      unfold animation_next
      rw [if_pos (by rw [hy]; simp only [GAME_WIDTH]; omega)]
    rw [hnext,
      ih { gg with elision_yielded := gg.elision_yielded + 1 } hrun
        (by show gg.elision_yielded + 1 = GAME_WIDTH - j; omega) (by omega)]

/-- Helper: a row is selected by `elide_tetrises` exactly when all its cells
are placed. -/
theorem mem_rows_to_elide {b : Board} {r : Nat} (hr : r < GAME_HEIGHT) :
    r ∈ rows_to_elide b ↔ ∀ c, c < GAME_WIDTH → (b r c).is_placed = true := by
  unfold rows_to_elide
  rw [List.mem_filter]
  constructor
  · rintro ⟨-, hfull⟩ c hc
    unfold full_row at hfull
    rw [decide_eq_true_eq] at hfull
    have hlen : ((List.range GAME_WIDTH).map fun col => b r col).length = GAME_WIDTH := by
      rw [List.length_map, List.length_range]
    have hall := List.filter_length_eq_length.mp (by rw [hfull, hlen])
    have := hall (b r c) (List.mem_map.mpr ⟨c, List.mem_range.mpr hc, rfl⟩)
    exact this
  · intro hall
    refine ⟨List.mem_range.mpr hr, ?_⟩
    unfold full_row
    rw [decide_eq_true_eq, List.filter_eq_self.mpr ?_]
    · rw [List.length_map, List.length_range]
    · intro x hx
      obtain ⟨c, hc, rfl⟩ := List.mem_map.mp hx
      exact hall c (List.mem_range.mp hc)

/-- C7: the line-clear routine (detection and scoring in `elide_tetrises`,
then the animation run to completion) selects exactly the all-placed rows,
deletes each of them and inserts one empty row at the top per deletion,
preserving the order of the remaining rows, and awards the
`multiplier * (level + 1)` points for the cleared count. -/
theorem elide_spec (g : Game) (hm : g.master = true)
    (hra : g.running_elision_animation = false)
    (hk : (rows_to_elide g.board).length ≤ 4) :
    ∃ g1, elide_run g = some g1
      ∧ (∀ r, r < GAME_HEIGHT → (r ∈ rows_to_elide g.board ↔
          ∀ c, c < GAME_WIDTH → (g.board r c).is_placed = true))
      ∧ board_rows g1.board
          = List.replicate (rows_to_elide g.board).length emptyRowList
            ++ ((List.range GAME_HEIGHT).filter
                fun r => decide (r ∉ rows_to_elide g.board)).map (row_list g.board)
      ∧ g1.lines = g.lines + (rows_to_elide g.board).length
      ∧ (1 ≤ (rows_to_elide g.board).length →
          g1.points = g.points
            + (multiplier_for_line_count (rows_to_elide g.board).length).getD 0
              * (g.level + 1)) := by
  have hpw : (rows_to_elide g.board).Pairwise (· < ·) :=
    List.Pairwise.filter _ (List.pairwise_lt_range GAME_HEIGHT)
  have hbound : ∀ r ∈ rows_to_elide g.board, r < GAME_HEIGHT := fun r hr =>
    List.mem_range.mp (List.mem_filter.mp hr).1
  have hgate : (!g.master) = false := by rw [hm]; rfl
  by_cases hemp : (rows_to_elide g.board).length = 0
  · have hrnil : rows_to_elide g.board = [] := List.length_eq_zero.mp hemp
    have het : elide_tetrises g = some g := by
      unfold elide_tetrises
      rw [hgate]
      show (if (rows_to_elide g.board).length ≠ 0 then _ else some g) = some g
      rw [if_neg (by omega)]
    refine ⟨g, ?_, fun r hr => mem_rows_to_elide hr, ?_, ?_, ?_⟩
    · unfold elide_run
      rw [het]
      show some (run_animation (GAME_WIDTH + 1) g) = some g
      have : run_animation (GAME_WIDTH + 1) g
          = if g.running_elision_animation then run_animation GAME_WIDTH (animation_next g)
            else g := rfl
      rw [this, hra]
      rfl
    · rw [hrnil]
      exact animate_elision_removal_spec [] g.board (List.Pairwise.nil)
        (fun r hr => absurd hr (List.not_mem_nil r))
    · rw [hrnil]
      rfl
    · rw [hrnil]
      intro h
      exact absurd h (by decide)
  · have hmult : ∃ m, multiplier_for_line_count (rows_to_elide g.board).length = some m := by
      have h14 : (rows_to_elide g.board).length = 1 ∨ (rows_to_elide g.board).length = 2
          ∨ (rows_to_elide g.board).length = 3 ∨ (rows_to_elide g.board).length = 4 := by
        omega
      rcases h14 with h | h | h | h <;> rw [h] <;> exact ⟨_, rfl⟩
    obtain ⟨m, hmval⟩ := hmult
    have het : elide_tetrises g = some
        { g with
          points := g.points + m * (g.level + 1)
          lines := g.lines + (rows_to_elide g.board).length
          level := (g.lines + (rows_to_elide g.board).length) / 10
          running_elision_animation := true
          elision_rows := rows_to_elide g.board
          elision_yielded := 0 } := by
      unfold elide_tetrises
      rw [hgate]
      show (if (rows_to_elide g.board).length ≠ 0 then
          (add_points_for_elision g (rows_to_elide g.board).length).map _ else some g) = _
      rw [if_pos hemp]
      unfold add_points_for_elision
      rw [hmval]
      rfl
    have hfin := run_animation_completes GAME_WIDTH
      { g with
        points := g.points + m * (g.level + 1)
        lines := g.lines + (rows_to_elide g.board).length
        level := (g.lines + (rows_to_elide g.board).length) / 10
        running_elision_animation := true
        elision_rows := rows_to_elide g.board
        elision_yielded := 0 } rfl (by show (0 : Nat) = GAME_WIDTH - GAME_WIDTH; omega)
      (le_refl _)
    refine ⟨{ g with
        points := g.points + m * (g.level + 1)
        lines := g.lines + (rows_to_elide g.board).length
        level := (g.lines + (rows_to_elide g.board).length) / 10
        board := animate_elision_removal g.board (rows_to_elide g.board)
        running_elision_animation := false
        elision_rows := rows_to_elide g.board
        elision_yielded := GAME_WIDTH },
      ?_, fun r hr => mem_rows_to_elide hr, ?_, ?_, ?_⟩
    · unfold elide_run
      rw [het]
      show some (run_animation (GAME_WIDTH + 1) _) = _
      rw [hfin]
    · show board_rows (animate_elision_removal g.board (rows_to_elide g.board)) = _
      exact animate_elision_removal_spec (rows_to_elide g.board) g.board hpw hbound
    · rfl
    · intro _
      show g.points + m * (g.level + 1)
        = g.points + (multiplier_for_line_count (rows_to_elide g.board).length).getD 0
            * (g.level + 1)
      rw [hmval]
      rfl

set_option maxRecDepth 40000 in
/-- Concrete witness for `elide_spec`: a master game whose bottom row is entirely
placed elides exactly that row, shifts everything above it down with a fresh empty
row on top (here: the whole board becomes empty), gains one line and
40 * (level + 1) = 40 points at level 0. -/
theorem elide_spec_witness :
    (gRow19.master = true ∧ gRow19.running_elision_animation = false
      ∧ (rows_to_elide gRow19.board).length ≤ 4)
    ∧ (∃ g1, elide_run gRow19 = some g1
      ∧ (∀ r, r < GAME_HEIGHT → (r ∈ rows_to_elide gRow19.board ↔
          ∀ c, c < GAME_WIDTH → (gRow19.board r c).is_placed = true))
      ∧ board_rows g1.board
          = List.replicate (rows_to_elide gRow19.board).length emptyRowList
            ++ ((List.range GAME_HEIGHT).filter
                fun r => decide (r ∉ rows_to_elide gRow19.board)).map
                  (row_list gRow19.board)
      ∧ g1.lines = gRow19.lines + (rows_to_elide gRow19.board).length
      ∧ (1 ≤ (rows_to_elide gRow19.board).length →
          g1.points = gRow19.points
            + (multiplier_for_line_count (rows_to_elide gRow19.board).length).getD 0
              * (gRow19.level + 1)))
    ∧ (elide_run gRow19).map (fun x => (x.points, x.lines, x.level, board_rows x.board))
        = some (40, 1, 0, List.replicate GAME_HEIGHT emptyRowList) :=
  ⟨⟨rfl, rfl, by decide⟩, elide_spec gRow19 rfl rfl (by decide), by decide⟩
